import Mathlib

/-!
# Carbide front end: a shallow embedding of the lexer and parser

This file embeds, in Lean, the Carbide language front end found in
`src/library/carbide_lexer/src/{lexer.rs, operators.rs, tokens.rs, errors.rs}` and
`src/library/carbide_parser/src/{parser.rs, nodes.rs, errors.rs}`, and proves or
refutes the behavioural claims about it.

Modelling conventions:

* Source text is a `List Char`.  The Rust code works with UTF-8 byte offsets
  (`pos += ch.len_utf8()`); every position it ever materialises is a character
  boundary, so positions are modelled as character indices.  On ASCII input the
  two coordinate systems coincide numerically.
* `u64`/`usize` become `Nat`.  `usize::try_from(u64)` (`usize_from` in the source)
  cannot fail in this model, so the `CastIntFailed` error variant is unreachable
  and omitted.
* `i64` literal parsing (`str::parse::<i64>` / `i64::from_str_radix`) is modelled
  exactly over `Nat` digit strings with the `i64::MAX` bound check.
* `f64` has no shallow embedding (floating point); a float literal carries its
  source text, and `str::parse::<f64>` is modelled by its success predicate on the
  digit-and-dot strings this lexer can reach.
* Every loop of the Rust code becomes a fuel-indexed structurally recursive
  function.  Fuel exhaustion is an explicit outcome (`fuelOut` / `none`); the
  entry points supply fuel bounds that are proven sufficient below, so the fuel
  never runs out.
* The parser's `current_location` contains undefined behaviour reachable from
  safe code: `self.peek().map_or(unsafe { self.last().unwrap_unchecked().end }, |i| i.end)`
  evaluates `self.tokens.get(self.pos - 1)` eagerly, which underflows (debug:
  panic) or feeds `None` to `unwrap_unchecked` (release: UB) whenever `pos == 0`.
  This is modelled by the explicit outcome `panicked`.
-/

set_option maxRecDepth 4000

namespace Carbide

/-- Shorthand: the character list of a string literal. -/
def str (s : String) : List Char := s.data

/-- Rust `&src[a..b]`: the slice of `l` from index `a` (inclusive) to `b` (exclusive). -/
def extract (l : List Char) (a b : Nat) : List Char := (l.take b).drop a

/-- `tokens.rs`: `SourceLocation { line, column, offset }`, 1-based line/column,
0-based offset. -/
structure SourceLocation where
  line : Nat
  column : Nat
  offset : Nat
deriving DecidableEq, Repr

/-- Modelled from the spec: `src/library/carbide_lexer/src/keywords.rs` is not in
the source tree (only its users are).  The spec's statement grammar (§4.2) and
the exhaustive `match kw { Keywords::Fn | Keywords::Let | Keywords::Return => return }`
in `parser.rs::synchronize` (no wildcard arm, so the enum has exactly these
variants) pin the keyword set to `let`, `fn`, `return` with those spellings. -/
inductive Keywords where
  | Let
  | Fn
  | Return
deriving DecidableEq, Repr

namespace Keywords

/-- Canonical spelling of each keyword. -/
def as_str : Keywords → List Char
  | .Let => str "let"
  | .Fn => str "fn"
  | .Return => str "return"

/-- `TryFrom<&str> for Keywords`: exact string match. -/
def try_from (s : List Char) : Option Keywords :=
  if s = str "let" then some .Let
  else if s = str "fn" then some .Fn
  else if s = str "return" then some .Return
  else none

end Keywords

/-- `operators.rs` (`carbide_lexer`): the `define_bin_ops!` invocation declares
exactly `EqEq => "=="`, `NotEq => "!="`, `Eq => "="`. -/
inductive BinaryOperators where
  | EqEq
  | NotEq
  | Eq
deriving DecidableEq, Repr

namespace BinaryOperators

def ALL : List BinaryOperators := [.EqEq, .NotEq, .Eq]

def as_str : BinaryOperators → List Char
  | .EqEq => str "=="
  | .NotEq => str "!="
  | .Eq => str "="

/-- `TryFrom<&str>`: exact match against a spelling. -/
def try_from (s : List Char) : Option BinaryOperators :=
  if s = str "==" then some .EqEq
  else if s = str "!=" then some .NotEq
  else if s = str "=" then some .Eq
  else none

/-- "does any binary operator start with this character" -/
def starts_with (ch : Char) : Bool :=
  ALL.any (fun op => op.as_str.head? = some ch)

end BinaryOperators

/-- `operators.rs` (`carbide_lexer`): `define_unary_ops!` declares exactly
`Not => "!"`. -/
inductive UnaryOperators where
  | Not
deriving DecidableEq, Repr

namespace UnaryOperators

def ALL : List UnaryOperators := [.Not]

def as_str : UnaryOperators → List Char
  | .Not => str "!"

def try_from (s : List Char) : Option UnaryOperators :=
  if s = str "!" then some .Not else none

def starts_with (ch : Char) : Bool :=
  ALL.any (fun op => op.as_str.head? = some ch)

end UnaryOperators

/-- `tokens.rs` (`carbide_lexer`): a part of an interpolated string. -/
inductive StringPart where
  | Text (t : List Char)
  | Interpolation (code : List Char)
deriving DecidableEq, Repr

/-- `tokens.rs` (`carbide_lexer`): the token kinds.  `FloatLiteral` carries its
source text (the `f64` value is abstracted, see the header). -/
inductive Tokens where
  | IntLiteral (v : Int)
  | FloatLiteral (raw : List Char)
  | HexLiteral (v : Int)
  | BinaryLiteral (v : Int)
  | StringLiteral (s : List Char)
  | InterpolatedString (parts : List StringPart)
  | Identifier (name : List Char)
  | Keyword (k : Keywords)
  | BinaryOperator (op : BinaryOperators)
  | UnaryOperator (op : UnaryOperators)
  | TypeIdentifier (name : List Char)
  | ThinArrow
  | FatArrow
  | LeftParen
  | RightParen
  | LeftBracket
  | RightBracket
  | LeftBrace
  | RightBrace
  | Semicolon
  | Colon
  | Period
  | Comma
  | Tilde
deriving DecidableEq, Repr

namespace Tokens

/-- `define_single_char_tokens!`: single-character token table. -/
def from_char (ch : Char) : Option Tokens :=
  if ch = '(' then some .LeftParen
  else if ch = ')' then some .RightParen
  else if ch = '[' then some .LeftBracket
  else if ch = ']' then some .RightBracket
  else if ch = '{' then some .LeftBrace
  else if ch = '}' then some .RightBrace
  else if ch = ';' then some .Semicolon
  else if ch = ':' then some .Colon
  else if ch = '.' then some .Period
  else if ch = ',' then some .Comma
  else if ch = '~' then some .Tilde
  else none

/-- `Tokens::starts_with`: can `ch` start a single-character token? -/
def starts_with (ch : Char) : Bool := (from_char ch).isSome

end Tokens

/-- `tokens.rs` (`carbide_lexer`): a token with its span (`start..end` as
half-open offsets) and its literal source slice. -/
structure Token where
  token_type : Tokens
  start : SourceLocation
  «end» : SourceLocation
  span : Nat × Nat
  src : List Char
deriving DecidableEq, Repr

/-- `errors.rs` (`carbide_lexer`): the lexer error kinds.  `CastIntFailed` is
unreachable in the model (`Nat` casts cannot fail) and omitted. -/
inductive CarbideLexerError where
  | NonASCIIChar (ch : Char) (loc : SourceLocation)
  | UnexpectedEOF (loc : SourceLocation)
  | UnexpectedChar (ch : Char) (loc : SourceLocation)
  | InvalidFloatLiteral (text : List Char) (loc : SourceLocation)
  | InvalidIntegerLiteral (text : List Char) (loc : SourceLocation)
  | InvalidHexLiteral (text : List Char) (loc : SourceLocation)
  | InvalidBinaryLiteral (text : List Char) (loc : SourceLocation)
  | CastKeywordFailed (text : List Char)
  | CastBinaryOpFailed (text : List Char)
  | CastUnaryOpFailed (text : List Char)
  | UnclosedComment (loc : SourceLocation)
  | UnclosedString (loc : SourceLocation)
  | UnmatchedBrace (loc : SourceLocation)
deriving DecidableEq, Repr

/-- Rust `char::is_ascii_whitespace`: space, tab, newline, form feed, carriage return. -/
def is_ascii_whitespace (c : Char) : Bool :=
  c = ' ' || c = '\t' || c = '\n' || c = '\x0c' || c = '\r'

/-- Rust `char::is_ascii_alphabetic`. -/
def is_ascii_alphabetic (c : Char) : Bool :=
  decide (('a' ≤ c ∧ c ≤ 'z') ∨ ('A' ≤ c ∧ c ≤ 'Z'))

/-- Rust `char::is_ascii_digit`. -/
def is_ascii_digit (c : Char) : Bool := decide ('0' ≤ c ∧ c ≤ '9')

/-- Rust `char::is_ascii_alphanumeric`. -/
def is_ascii_alphanumeric (c : Char) : Bool := is_ascii_alphabetic c || is_ascii_digit c

/-- Rust `char::is_ascii_hexdigit`. -/
def is_ascii_hexdigit (c : Char) : Bool :=
  is_ascii_digit c || decide (('a' ≤ c ∧ c ≤ 'f') ∨ ('A' ≤ c ∧ c ≤ 'F'))

/-- Rust `char::is_ascii`. -/
def is_ascii (c : Char) : Bool := decide (c.toNat < 128)

/-- Value of a digit character in radix ≤ 16. -/
def digit_val (c : Char) : Nat :=
  if is_ascii_digit c then c.toNat - 48
  else if decide ('a' ≤ c ∧ c ≤ 'f') then c.toNat - 87
  else if decide ('A' ≤ c ∧ c ≤ 'F') then c.toNat - 55
  else 0

/-- `i64::MAX`. -/
def I64_MAX : Nat := 9223372036854775807

/-- Models Rust's `i64::from_str_radix` / `str::parse::<i64>` on the strings the
lexer feeds it (non-empty runs of valid digits for the radix): the exact integer
value, with failure exactly when the value exceeds `i64::MAX`. -/
def rust_parse_i64 (radix : Nat) (digits : List Char) : Option Int :=
  if digits = [] then none
  else
    let v := digits.foldl (fun acc c => acc * radix + digit_val c) 0
    if v ≤ I64_MAX then some (Int.ofNat v) else none

/-- Models Rust's `str::parse::<f64>` success predicate on the slices the float
branch of `lex_number` can produce (a digit-led run of digits containing a dot):
parsing such a string always succeeds (overflow gives infinity, not an error). -/
def rust_parse_f64_ok (s : List Char) : Bool :=
  s ≠ [] && s.all (fun c => is_ascii_digit c || c = '.') &&
    (s.head? ≠ some '.') && (s.countP (· = '.') ≤ 1)

/-- `lexer.rs`: the mutable cursor state of `CarbideLexer` (the source text is
the fixed parameter `src` below). -/
structure LexerState where
  pos : Nat
  line : Nat
  column : Nat
deriving DecidableEq, Repr

/-- Outcome of a lexer subroutine: success or a recorded error, each with the
cursor state left behind (the Rust methods mutate `&mut self`), or fuel
exhaustion (never reached with the supplied fuel, as proven below). -/
inductive LexOut (α : Type) where
  | ok (a : α) (st : LexerState)
  | err (e : CarbideLexerError) (st : LexerState)
  | fuelOut
deriving Repr

/-- Outcome of a state-free lexer helper (`lex_interpolated_string` takes `&self`). -/
inductive ROut (α : Type) where
  | ok (a : α)
  | err (e : CarbideLexerError)
  | fuelOut
deriving DecidableEq, Repr

section Lexer

variable (src : List Char)

/-- `CarbideLexer::from_src`. -/
def from_src : LexerState := ⟨0, 1, 1⟩

/-- `CarbideLexer::current_location`. -/
def current_location (st : LexerState) : SourceLocation :=
  ⟨st.line, st.column, st.pos⟩

/-- `CarbideLexer::is_eof`. -/
def is_eof (st : LexerState) : Bool := decide (st.pos ≥ src.length)

/-- `CarbideLexer::peek`. -/
def peek (st : LexerState) : Option Char := src[st.pos]?

/-- `CarbideLexer::next`: advance one character, updating line/column. -/
def next (st : LexerState) : Option Char × LexerState :=
  match src[st.pos]? with
  | some ch =>
      (some ch,
        if ch = '\n' then ⟨st.pos + 1, st.line + 1, 1⟩
        else ⟨st.pos + 1, st.line, st.column + 1⟩)
  | none => (none, st)

/-- Rust `self.src[self.pos..].starts_with(pat)`. -/
def starts_with_at (st : LexerState) (pat : List Char) : Bool :=
  List.isPrefixOf pat (src.drop st.pos)

/-- The `self.pos += 2; self.column += 2;` steps used for `//`, `/*`, `*/`, `0x`, `0b`. -/
def advance2 (st : LexerState) : LexerState := ⟨st.pos + 2, st.line, st.column + 2⟩

/-- `CarbideLexer::consume_while` (fuelled). -/
def consume_while (cond : Char → Bool) : Nat → LexerState → LexerState
  | 0, st => st
  | fuel + 1, st =>
      match src[st.pos]? with
      | some ch => if cond ch then consume_while cond fuel (next src st).2 else st
      | none => st

/-- The loop of `CarbideLexer::skip_nested_comment`: while not at EOF and depth > 0,
match `/*` (depth + 1), `*/` (depth − 1), or consume one character; at exit,
depth > 0 means the comment was unclosed. -/
def skip_nested_comment_go (startLoc : SourceLocation) :
    Nat → Nat → LexerState → LexOut Unit
  | 0, _, _ => .fuelOut
  | fuel + 1, depth, st =>
      if st.pos ≥ src.length ∨ depth = 0 then
        if depth > 0 then .err (.UnclosedComment startLoc) st else .ok () st
      else if starts_with_at src st (str "/*") then
        skip_nested_comment_go startLoc fuel (depth + 1) (advance2 st)
      else if starts_with_at src st (str "*/") then
        skip_nested_comment_go startLoc fuel (depth - 1) (advance2 st)
      else
        skip_nested_comment_go startLoc fuel depth (next src st).2

/-- `CarbideLexer::skip_nested_comment`: records the start location, steps over
the opening `/*`, and runs the depth-counting loop. -/
def skip_nested_comment (st : LexerState) : LexOut Unit :=
  skip_nested_comment_go src (current_location st) (src.length + 1) 1 (advance2 st)

/-- `CarbideLexer::skip_whitespace_and_comments` (fuelled loop): skip ASCII
whitespace, line comments (`//` to end of line) and nested block comments. -/
def skip_ws_go : Nat → LexerState → LexOut Unit
  | 0, _ => .fuelOut
  | fuel + 1, st =>
      if (peek src st).elim false (fun ch => is_ascii_whitespace ch) then
        skip_ws_go fuel (next src st).2
      else if starts_with_at src st (str "//") then
        skip_ws_go fuel (consume_while src (fun c => c ≠ '\n') (src.length + 1) (advance2 st))
      else if starts_with_at src st (str "/*") then
        match skip_nested_comment src st with
        | .ok _ st' => skip_ws_go fuel st'
        | .err e st' => .err e st'
        | .fuelOut => .fuelOut
      else .ok () st

/-- `CarbideLexer::skip_whitespace_and_comments`. -/
def skip_whitespace_and_comments (st : LexerState) : LexOut Unit :=
  skip_ws_go src (src.length + 1) st

/-- Is `ch` a character that can legally start a new token (the restart set of
`recover_from_error`)? -/
def valid_restart (ch : Char) : Bool :=
  is_ascii_whitespace ch || is_ascii_alphabetic ch || ch = '_' || is_ascii_digit ch
    || BinaryOperators.starts_with ch || UnaryOperators.starts_with ch
    || Tokens.starts_with ch || ch = '/'

/-- The scan loop of `recover_from_error`. -/
def recover_go : Nat → LexerState → LexerState
  | 0, st => st
  | fuel + 1, st =>
      match src[st.pos]? with
      | some ch => if valid_restart ch then st else recover_go fuel (next src st).2
      | none => st

/-- `CarbideLexer::recover_from_error`: advance one character (a no-op at EOF),
then skip to the next character that can start a token. -/
def recover_from_error (st : LexerState) : LexerState :=
  recover_go src (src.length + 1) (next src st).2

/-- `CarbideLexer::lex_identifier`: consume alphanumeric/underscore characters,
then classify the slice as a keyword or an identifier.  (The source's
`usize_from` casts cannot fail in the model.) -/
def lex_identifier (st : LexerState) (start : Nat) (startLoc : SourceLocation) :
    LexOut Token :=
  let st' := consume_while src (fun c => is_ascii_alphanumeric c || c = '_')
    (src.length + 1) st
  let slice := extract src start st'.pos
  let token_type : Tokens :=
    match Keywords.try_from slice with
    | some keyword => .Keyword keyword
    | none => .Identifier slice
  .ok ⟨token_type, startLoc, current_location st', (start, st'.pos), slice⟩ st'

/-- The scan of `lex_number`'s decimal/float branch: `consume_while` with the
mutable `has_dot` closure — digits always continue; a first `.` continues and
sets the flag; a second `.` stops. -/
def lex_number_scan : Nat → Bool → LexerState → LexerState
  | 0, _, st => st
  | fuel + 1, hasDot, st =>
      match src[st.pos]? with
      | some c =>
          if c = '.' then
            if hasDot then st else lex_number_scan fuel true (next src st).2
          else if is_ascii_digit c then lex_number_scan fuel hasDot (next src st).2
          else st
      | none => st

/-- Whether the decimal/float scan saw a dot (the final value of the `has_dot`
flag): true iff a `.` was consumed. -/
def lex_number_has_dot : Nat → Bool → LexerState → Bool
  | 0, hasDot, _ => hasDot
  | fuel + 1, hasDot, st =>
      match src[st.pos]? with
      | some c =>
          if c = '.' then
            if hasDot then hasDot else lex_number_has_dot fuel true (next src st).2
          else if is_ascii_digit c then lex_number_has_dot fuel hasDot (next src st).2
          else hasDot
      | none => hasDot

/-- `CarbideLexer::lex_number`: `0x` hex and `0b` binary branches, then the
decimal/float branch; literal text is parsed as exact `i64` (`f64` for floats)
and a parse failure becomes the branch's own diagnostic. -/
def lex_number (st : LexerState) (start : Nat) (startLoc : SourceLocation) :
    LexOut Token :=
  if starts_with_at src st (['0', 'x']) then
    let st0 := advance2 st
    let hexStart := st0.pos
    let st' := consume_while src (fun c => is_ascii_hexdigit c) (src.length + 1) st0
    let slice := extract src start st'.pos
    let hexDigits := extract src hexStart st'.pos
    if hexDigits = [] then .err (.InvalidHexLiteral (['0', 'x']) startLoc) st'
    else
      match rust_parse_i64 16 hexDigits with
      | some v => .ok ⟨.HexLiteral v, startLoc, current_location st', (start, st'.pos), slice⟩ st'
      | none => .err (.InvalidHexLiteral hexDigits startLoc) st'
  else if starts_with_at src st (['0', 'b']) then
    let st0 := advance2 st
    let binStart := st0.pos
    let st' := consume_while src (fun c => c = '0' || c = '1') (src.length + 1) st0
    let slice := extract src start st'.pos
    let binDigits := extract src binStart st'.pos
    if binDigits = [] then .err (.InvalidBinaryLiteral (['0', 'b']) startLoc) st'
    else
      match rust_parse_i64 2 binDigits with
      | some v => .ok ⟨.BinaryLiteral v, startLoc, current_location st', (start, st'.pos), slice⟩ st'
      | none => .err (.InvalidBinaryLiteral binDigits startLoc) st'
  else
    let st' := lex_number_scan src (src.length + 1) false st
    let hasDot := lex_number_has_dot src (src.length + 1) false st
    let slice := extract src start st'.pos
    if hasDot then
      if rust_parse_f64_ok slice then
        .ok ⟨.FloatLiteral slice, startLoc, current_location st', (start, st'.pos), slice⟩ st'
      else .err (.InvalidFloatLiteral slice startLoc) st'
    else
      match rust_parse_i64 10 slice with
      | some v => .ok ⟨.IntLiteral v, startLoc, current_location st', (start, st'.pos), slice⟩ st'
      | none => .err (.InvalidIntegerLiteral slice startLoc) st'

/-- `CarbideLexer::lex_operator`: greedy two-character match against the binary
then unary operator tables, falling back to the one-character spellings, else
`UnexpectedChar`. -/
def lex_operator (st : LexerState) (start : Nat) (startLoc : SourceLocation) :
    LexOut Token :=
  match next src st with
  | (none, st1) => .err (.UnexpectedEOF startLoc) st1
  | (some first, st1) =>
      let oneChar : LexOut Token :=
        let slice := extract src start st1.pos
        match BinaryOperators.try_from slice with
        | some binOp =>
            .ok ⟨.BinaryOperator binOp, startLoc, current_location st1, (start, st1.pos), slice⟩ st1
        | none =>
            match UnaryOperators.try_from slice with
            | some unOp =>
                .ok ⟨.UnaryOperator unOp, startLoc, current_location st1, (start, st1.pos), slice⟩ st1
            | none => .err (.UnexpectedChar first startLoc) st1
      match peek src st1 with
      | some second =>
          if (BinaryOperators.try_from [first, second]).isSome then
            let st2 := (next src st1).2
            let slice := extract src start st2.pos
            match BinaryOperators.try_from slice with
            | some op =>
                .ok ⟨.BinaryOperator op, startLoc, current_location st2, (start, st2.pos), slice⟩ st2
            | none => .err (.CastBinaryOpFailed slice) st2
          else if (UnaryOperators.try_from [first, second]).isSome then
            let st2 := (next src st1).2
            let slice := extract src start st2.pos
            match UnaryOperators.try_from slice with
            | some op =>
                .ok ⟨.UnaryOperator op, startLoc, current_location st2, (start, st2.pos), slice⟩ st2
            | none => .err (.CastUnaryOpFailed slice) st2
          else oneChar
      | none => oneChar

/-- `CarbideLexer::lex_single_char`: punctuation via the single-character table. -/
def lex_single_char (st : LexerState) (start : Nat) (startLoc : SourceLocation) :
    LexOut (Option Token) :=
  match peek src st with
  | some ch =>
      if Tokens.starts_with ch then
        let st1 := (next src st).2
        let slice := extract src start st1.pos
        match Tokens.from_char ch with
        | some token_type =>
            .ok (some ⟨token_type, startLoc, current_location st1, (start, st1.pos), slice⟩) st1
        | none => .ok none st1
      else .ok none st
  | none => .ok none st

end Lexer

/-- `CarbideLexer::unescape_string`: decode recognized escapes; pass unknown
escapes through as backslash + character.  (The Rust signature returns `Result`
but no error path exists, so the model is total.) -/
def unescape_string : List Char → List Char
  | [] => []
  | '\\' :: rest =>
      match rest with
      | [] => ['\\']
      | c :: rest' =>
          (if c = 'n' then ['\n']
            else if c = 't' then ['\t']
            else if c = 'r' then ['\r']
            else if c = '\\' then ['\\']
            else if c = '"' then ['"']
            else if c = '\'' then ['\'']
            else if c = '0' then ['\x00']
            else ['\\', c]) ++ unescape_string rest'
  | c :: rest => c :: unescape_string rest

/-- The text scan of `lex_interpolated_string`: advance `textEnd` over the raw
content, tracking `in_escape`, until an unescaped `{` or the end. -/
def interp_text_scan (raw : List Char) : Nat → Nat → Bool → Nat
  | 0, textEnd, _ => textEnd
  | fuel + 1, textEnd, inEscape =>
      if textEnd ≥ raw.length then textEnd
      else if inEscape then interp_text_scan raw fuel (textEnd + 1) false
      else
        match raw[textEnd]? with
        | some '\\' => interp_text_scan raw fuel (textEnd + 1) true
        | some '{' => textEnd
        | _ => interp_text_scan raw fuel (textEnd + 1) false

/-- The brace-depth scan of `lex_interpolated_string`: starting just after a `{`
at depth 1, track `{`/`}` nesting; stops on the matching `}` (not consumed) or
at the end of the raw content.  Returns the final depth and position. -/
def interp_brace_scan (raw : List Char) : Nat → Nat → Nat → Nat × Nat
  | 0, depth, textEnd => (depth, textEnd)
  | fuel + 1, depth, textEnd =>
      if textEnd ≥ raw.length ∨ depth = 0 then (depth, textEnd)
      else
        let depth' :=
          match raw[textEnd]? with
          | some '{' => depth + 1
          | some '}' => depth - 1
          | _ => depth
        if depth' > 0 then interp_brace_scan raw fuel depth' (textEnd + 1)
        else (depth', textEnd)

/-- The outer loop of `CarbideLexer::lex_interpolated_string`: split the raw
string content into unescaped `Text` segments and raw `Interpolation` segments
(code between balanced braces); an unterminated `{` is `UnmatchedBrace` at the
string's start location. -/
def lex_interpolated_go (raw : List Char) (loc : SourceLocation) :
    Nat → Nat → ROut (List StringPart)
  | 0, _ => .fuelOut
  | fuel + 1, current =>
      if current ≥ raw.length then .ok []
      else
        let textEnd := interp_text_scan raw (raw.length + 1) current false
        let textParts : List StringPart :=
          if textEnd > current then
            let unescaped := unescape_string (extract raw current textEnd)
            if unescaped ≠ [] then [.Text unescaped] else []
          else []
        if textEnd ≥ raw.length then .ok textParts
        else
          match raw[textEnd]? with
          | some '{' =>
              let interpStart := textEnd + 1
              let scanned := interp_brace_scan raw (raw.length + 1) 1 (textEnd + 1)
              if scanned.1 ≠ 0 then .err (.UnmatchedBrace loc)
              else
                match lex_interpolated_go raw loc fuel (scanned.2 + 1) with
                | .ok rest =>
                    .ok (textParts ++ .Interpolation (extract raw interpStart scanned.2) :: rest)
                | .err e => .err e
                | .fuelOut => .fuelOut
          | _ => .ok textParts

/-- `CarbideLexer::lex_interpolated_string`. -/
def lex_interpolated_string (raw : List Char) (loc : SourceLocation) :
    ROut (List StringPart) :=
  lex_interpolated_go raw loc (raw.length + 1) 0

section Lexer2

variable (src : List Char)

/-- The content loop of `CarbideLexer::lex_string`: scan to the closing quote,
skipping escaped pairs, flagging `{` interpolation; EOF first is
`UnclosedString` at the opening quote. -/
def lex_string_go (startLoc : SourceLocation) : Nat → Bool → LexerState → LexOut Bool
  | 0, _, _ => .fuelOut
  | fuel + 1, hasInterp, st =>
      if st.pos ≥ src.length then .err (.UnclosedString startLoc) st
      else
        match src[st.pos]? with
        | some ch =>
            if ch = '"' then .ok hasInterp st
            else if ch = '\\' then
              let st1 := (next src st).2
              let st2 := if st1.pos ≥ src.length then st1 else (next src st1).2
              lex_string_go startLoc fuel hasInterp st2
            else if ch = '{' then lex_string_go startLoc fuel true (next src st).2
            else lex_string_go startLoc fuel hasInterp (next src st).2
        | none => .err (.UnclosedString startLoc) st

/-- `CarbideLexer::lex_string`: consume the opening quote, scan the content,
consume the closing quote, then build either a `StringLiteral` (unescaped) or an
`InterpolatedString` (split into parts). -/
def lex_string (st : LexerState) (start : Nat) (startLoc : SourceLocation) :
    LexOut (Option Token) :=
  match peek src st with
  | some ch =>
      if ch = '"' then
        let st0 := (next src st).2
        let stringStart := st0.pos
        match lex_string_go src startLoc (src.length + 1) false st0 with
        | .err e st' => .err e st'
        | .fuelOut => .fuelOut
        | .ok hasInterp stq =>
            let rawString := extract src stringStart stq.pos
            let st1 := (next src stq).2
            let fullSlice := extract src start st1.pos
            if hasInterp then
              match lex_interpolated_string rawString startLoc with
              | .ok parts =>
                  .ok (some ⟨.InterpolatedString parts, startLoc, current_location st1,
                    (start, st1.pos), fullSlice⟩) st1
              | .err e => .err e st1
              | .fuelOut => .fuelOut
            else
              .ok (some ⟨.StringLiteral (unescape_string rawString), startLoc,
                current_location st1, (start, st1.pos), fullSlice⟩) st1
      else .ok none st
  | none => .ok none st

/-- `LexResult`: tokens and recovered-from errors. -/
structure LexResult where
  tokens : List Token
  errors : List CarbideLexerError
deriving DecidableEq, Repr

/-- The main loop of `CarbideLexer::lex`: skip trivia, classify the next
character (non-ASCII → `NonASCIIChar`; letter/underscore → identifier; `"` →
string; digit → number; operator start → operator; single-char table →
punctuation; otherwise `UnexpectedChar`), recovering after each error. -/
def lex_go : Nat → LexerState → List Token → List CarbideLexerError → Option LexResult
  | 0, _, _, _ => none
  | fuel + 1, st, tokens, errors =>
      if st.pos ≥ src.length then some ⟨tokens, errors⟩
      else
        match skip_whitespace_and_comments src st with
        | .fuelOut => none
        | .err e st1 => lex_go fuel (recover_from_error src st1) tokens (errors ++ [e])
        | .ok _ st1 =>
            if st1.pos ≥ src.length then some ⟨tokens, errors⟩
            else
              let start := st1.pos
              let startLoc := current_location st1
              match peek src st1 with
              | none => some ⟨tokens, errors⟩
              | some ch =>
                  if ¬is_ascii ch then
                    lex_go fuel (recover_from_error src st1) tokens
                      (errors ++ [.NonASCIIChar ch startLoc])
                  else if is_ascii_alphabetic ch || ch = '_' then
                    match lex_identifier src st1 start startLoc with
                    | .ok t st2 => lex_go fuel st2 (tokens ++ [t]) errors
                    | .err e st2 => lex_go fuel (recover_from_error src st2) tokens (errors ++ [e])
                    | .fuelOut => none
                  else if ch = '"' then
                    match lex_string src st1 start startLoc with
                    | .ok (some t) st2 => lex_go fuel st2 (tokens ++ [t]) errors
                    | .ok none st2 => lex_go fuel st2 tokens errors
                    | .err e st2 => lex_go fuel (recover_from_error src st2) tokens (errors ++ [e])
                    | .fuelOut => none
                  else if is_ascii_digit ch then
                    match lex_number src st1 start startLoc with
                    | .ok t st2 => lex_go fuel st2 (tokens ++ [t]) errors
                    | .err e st2 => lex_go fuel (recover_from_error src st2) tokens (errors ++ [e])
                    | .fuelOut => none
                  else if BinaryOperators.starts_with ch || UnaryOperators.starts_with ch then
                    match lex_operator src st1 start startLoc with
                    | .ok t st2 => lex_go fuel st2 (tokens ++ [t]) errors
                    | .err e st2 => lex_go fuel (recover_from_error src st2) tokens (errors ++ [e])
                    | .fuelOut => none
                  else
                    match lex_single_char src st1 start startLoc with
                    | .ok (some t) st2 => lex_go fuel st2 (tokens ++ [t]) errors
                    | .ok none st2 =>
                        lex_go fuel (recover_from_error src st2) tokens
                          (errors ++ [.UnexpectedChar ch startLoc])
                    | .err e st2 => lex_go fuel (recover_from_error src st2) tokens (errors ++ [e])
                    | .fuelOut => none

/-- `CarbideLexer::lex`: run the main loop from the initial state.  The fuel
`src.length + 1` is sufficient (proven below), so the result is never `none`. -/
def lex : Option LexResult :=
  lex_go src (src.length + 1) (from_src) [] []

/-- `CarbideLexer::lex_strict`: `lex`, failing with the first error if any. -/
def lex_strict : Option (Except CarbideLexerError (List Token)) :=
  match lex src with
  | some result =>
      some (match result.errors with
        | [] => .ok result.tokens
        | e :: _ => .error e)
  | none => none

end Lexer2

/-! ## Parser data model (`carbide_parser/src/nodes.rs`, `errors.rs`) -/

namespace Nodes

/-- `nodes.rs`: `Type` (named `Type'` here; `Type` is reserved in Lean). -/
inductive Type' where
  | Named (name : List Char)
  | Function (parameters : List Type') (return_type : Type')
  | Array (element : Type')
  | Unit

/-- `nodes.rs`: `LiteralValue`.  `Float` carries the literal's source text, matching
the token model. -/
inductive LiteralValue where
  | Int (v : Int)
  | Float (raw : List Char)
  | String (s : List Char)
  | Bool (b : Bool)
deriving DecidableEq, Repr

mutual
/-- `nodes.rs`: `Expression`. -/
inductive Expression where
  | Literal (v : LiteralValue)
  | Identifier (name : List Char)
  | BinaryOp (left : Expression) (operator : BinaryOperators) (right : Expression)
  | UnaryOp (operator : UnaryOperators) (operand : Expression)
  | Assignment (target : Expression) (value : Expression)
  | Call (callee : Expression) (arguments : List Expression)
  | Index (target : Expression) (index : Expression)
  | MemberAccess (target : Expression) (member : List Char)
  | Grouped (e : Expression)
  | Array (elements : List Expression)
  | InterpolatedString (parts : List StringPart)

/-- `nodes.rs`: `StringPart` (the AST-side one, distinct from the lexer's). -/
inductive StringPart where
  | Text (t : List Char)
  | Expression (e : Expression)
end

/-- `nodes.rs`: `Parameter`. -/
structure Parameter where
  name : List Char
  type_annot : Option Type'

/-- `nodes.rs`: `Statement`. -/
inductive Statement where
  | LetDeclaration (name : List Char) (type_annot : Option Type')
      (initializer : Option Expression)
  | FunctionDeclaration (name : List Char) (parameters : List Parameter)
      (return_type : Option Type') (body : List Statement)
  | Return (e : Option Expression)
  | If (condition : Expression) (then_branch : List Statement)
      (else_branch : Option (List Statement))
  | While (condition : Expression) (body : List Statement)
  | For (initializer : Option Statement) (condition : Option Expression)
      (increment : Option Expression) (body : List Statement)
  | Block (statements : List Statement)
  | Expression (e : Expression)
  | Break
  | Continue

end Nodes

/-- `errors.rs` (`carbide_parser`): the parser error kinds.  `UnexpectedToken` and
`ExpectedIdentifier` carry the found token. -/
inductive CarbideParserError where
  | UnexpectedEOF (loc : SourceLocation)
  | UnexpectedToken (expected : List Char) (found : Token)
  | ExpectedIdentifier (found : Token)
  | ExpectedExpression (loc : SourceLocation)
  | InvalidAssignmentTarget (loc : SourceLocation)
  | TooManyParameters (loc : SourceLocation)
  | TooManyArguments (loc : SourceLocation)
  | BreakOutsideLoop (loc : SourceLocation)
  | ContinueOutsideLoop (loc : SourceLocation)
  | ReturnOutsideFunction (loc : SourceLocation)
  | CastFailed (a b : List Char)
deriving DecidableEq, Repr

/-- Outcome of a parser subroutine: success or error (each with the cursor
position the `&mut self` method left behind), the `current_location`
panic/undefined behaviour (see the header), or fuel exhaustion, which stands
for exhausting the Rust native call stack on deep recursion. -/
inductive POut (α : Type) where
  | ok (a : α) (pos : Nat)
  | err (e : CarbideParserError) (pos : Nat)
  | panicked
  | fuelOut
deriving Repr

/-- The `?` operator on parser results. -/
def POut.bind : POut α → (α → Nat → POut β) → POut β
  | .ok a pos, f => f a pos
  | .err e pos, _ => .err e pos
  | .panicked, _ => .panicked
  | .fuelOut, _ => .fuelOut

namespace Tokens

/-- Discriminant tests used by the parser's `matches!` patterns. -/
def is_semicolon : Tokens → Bool
  | .Semicolon => true
  | _ => false

def is_colon : Tokens → Bool
  | .Colon => true
  | _ => false

def is_comma : Tokens → Bool
  | .Comma => true
  | _ => false

def is_period : Tokens → Bool
  | .Period => true
  | _ => false

def is_left_paren : Tokens → Bool
  | .LeftParen => true
  | _ => false

def is_right_paren : Tokens → Bool
  | .RightParen => true
  | _ => false

def is_left_bracket : Tokens → Bool
  | .LeftBracket => true
  | _ => false

def is_right_bracket : Tokens → Bool
  | .RightBracket => true
  | _ => false

def is_left_brace : Tokens → Bool
  | .LeftBrace => true
  | _ => false

def is_right_brace : Tokens → Bool
  | .RightBrace => true
  | _ => false

def is_thin_arrow : Tokens → Bool
  | .ThinArrow => true
  | _ => false

def is_identifier : Tokens → Bool
  | .Identifier _ => true
  | _ => false

def is_kw_let : Tokens → Bool
  | .Keyword .Let => true
  | _ => false

def is_kw_fn : Tokens → Bool
  | .Keyword .Fn => true
  | _ => false

def is_kw_return : Tokens → Bool
  | .Keyword .Return => true
  | _ => false

/-- `matches!(…, Tokens::Keyword(_))`: in `synchronize` the inner
`match kw { Keywords::Fn | Keywords::Let | Keywords::Return => return }` is
exhaustive over the keyword enum, so any keyword token stops synchronization. -/
def is_keyword : Tokens → Bool
  | .Keyword _ => true
  | _ => false

def is_binop_eq : Tokens → Bool
  | .BinaryOperator .Eq => true
  | _ => false

end Tokens

section Parser

variable (tokens : List Token)

/-- `CarbideParser::current_location`:
`self.peek().map_or(unsafe { self.last().unwrap_unchecked().end }, |i| i.end)`.
Rust evaluates the `map_or` default eagerly, so `self.last()` — which computes
`self.tokens.get(self.pos - 1)` on a `usize` — runs on every call: with
`pos == 0` the subtraction underflows (panic in debug builds; in release the
wrapped index makes `get` return `None` and `unwrap_unchecked` is undefined
behaviour).  `none` models that panic/UB. -/
def p_current_location (pos : Nat) : Option SourceLocation :=
  if pos = 0 then none
  else
    match tokens[pos - 1]? with
    | none => none
    | some lastTok => some ((tokens[pos]?).elim lastTok.«end» (fun t => t.«end»))

/-- `CarbideParser::check`. -/
def check (pattern : Tokens → Bool) (pos : Nat) : Bool :=
  (tokens[pos]?).elim false (fun t => pattern t.token_type)

/-- `CarbideParser::match_token`: consume the token if it matches; returns
whether it matched and the new position. -/
def match_token (pattern : Tokens → Bool) (pos : Nat) : Bool × Nat :=
  match tokens[pos]? with
  | some t => if pattern t.token_type then (true, pos + 1) else (false, pos)
  | none => (false, pos)

/-- `CarbideParser::expect`: require a matching token (advancing past it), else
`UnexpectedToken`; at EOF, `UnexpectedEOF` at `current_location` (which can
panic, see `p_current_location`). -/
def expect (pattern : Tokens → Bool) (expected : List Char) (pos : Nat) : POut Token :=
  match tokens[pos]? with
  | some token =>
      if pattern token.token_type then .ok token (pos + 1)
      else .err (.UnexpectedToken expected token) pos
  | none =>
      match p_current_location tokens pos with
      | some loc => .err (.UnexpectedEOF loc) pos
      | none => .panicked

/-- `CarbideParser::advance` (its effect on `pos`). -/
def p_advance (pos : Nat) : Nat := if pos < tokens.length then pos + 1 else pos

/-- The scan loop of `CarbideParser::synchronize`: stop right after a `;`
(`self.tokens.get(self.pos.saturating_sub(1))` — `Nat` subtraction saturates
just like `saturating_sub`), right before a keyword, or at EOF. -/
def synchronize_go : Nat → Nat → Nat
  | 0, pos => pos
  | fuel + 1, pos =>
      if pos ≥ tokens.length then pos
      else if (tokens[pos - 1]?).elim false (fun prev => prev.token_type.is_semicolon) then pos
      else if (tokens[pos]?).elim false (fun t => t.token_type.is_keyword) then pos
      else synchronize_go fuel (pos + 1)

/-- `CarbideParser::synchronize`: advance one token, then scan to a statement
boundary. -/
def synchronize (pos : Nat) : Nat :=
  synchronize_go tokens (tokens.length + 1) (p_advance tokens pos)

end Parser

/-! ## The recursive-descent parser (`carbide_parser/src/parser.rs`)

Every function takes the token list, a fuel (decremented on every call, modelling
the native call stack), and the cursor position. -/

mutual

/-- `CarbideParser::parse_type`: named types and `[element]` array types. -/
def parse_type (tokens : List Token) : Nat → Nat → POut Nodes.Type'
  | 0, _ => .fuelOut
  | fuel + 1, pos =>
      match tokens[pos]? with
      | some token =>
          match token.token_type with
          | .TypeIdentifier name => .ok (.Named name) (pos + 1)
          | .Identifier name => .ok (.Named name) (pos + 1)
          | .LeftBracket =>
              (parse_type tokens fuel (pos + 1)).bind fun elementType pos1 =>
              (expect tokens Tokens.is_right_bracket (str "]") pos1).bind fun _ pos2 =>
              .ok (.Array elementType) pos2
          | _ => .err (.UnexpectedToken (str "type") token) pos
      | none =>
          match p_current_location tokens pos with
          | some loc => .err (.UnexpectedEOF loc) pos
          | none => .panicked
termination_by structural fuel _ => fuel


/-- `CarbideParser::parse_statement`: single-token lookahead dispatch. -/
def parse_statement (tokens : List Token) : Nat → Nat → POut Nodes.Statement
  | 0, _ => .fuelOut
  | fuel + 1, pos =>
      match tokens[pos]? with
      | some token =>
          match token.token_type with
          | .Keyword .Let => parse_let_statement tokens fuel pos
          | .Keyword .Fn => parse_function_declaration tokens fuel pos
          | .Keyword .Return => parse_return tokens fuel pos
          | .LeftBrace => parse_block_statement tokens fuel pos
          | _ => parse_expression_statement tokens fuel pos
      | none =>
          match p_current_location tokens pos with
          | some loc => .err (.UnexpectedEOF loc) pos
          | none => .panicked
termination_by structural fuel _ => fuel


/-- `CarbideParser::parse_let_statement`.  Note the initializer branch: if
`parse_expression` fails, the original error is discarded and
`InvalidAssignmentTarget(self.current_location())` returned instead — the only
place the parser constructs `InvalidAssignmentTarget`. -/
def parse_let_statement (tokens : List Token) : Nat → Nat → POut Nodes.Statement
  | 0, _ => .fuelOut
  | fuel + 1, pos =>
      (expect tokens Tokens.is_kw_let (str "let") pos).bind fun _ pos1 =>
      (expect tokens Tokens.is_identifier (str "identifier") pos1).bind fun nameToken pos2 =>
      match nameToken.token_type with
      | .Identifier n =>
          let afterColon := match_token tokens Tokens.is_colon pos2
          ((if afterColon.1 then
              (parse_type tokens fuel afterColon.2).bind fun t p => .ok (some t) p
            else .ok none afterColon.2 : POut (Option Nodes.Type'))).bind
            fun type_annot pos3 =>
          let afterEq := match_token tokens Tokens.is_binop_eq pos3
          ((if afterEq.1 then
              match parse_expression tokens fuel afterEq.2 with
              | .ok expr p => .ok (some expr) p
              | .err _ p =>
                  match p_current_location tokens p with
                  | some loc => .err (.InvalidAssignmentTarget loc) p
                  | none => .panicked
              | .panicked => .panicked
              | .fuelOut => .fuelOut
            else .ok none afterEq.2 : POut (Option Nodes.Expression))).bind
            fun initializer pos4 =>
          (expect tokens Tokens.is_semicolon (str ";") pos4).bind fun _ pos5 =>
          .ok (.LetDeclaration n type_annot initializer) pos5
      | _ => .err (.ExpectedIdentifier nameToken) pos2


/-- The statement loop of `parse_block_statement`: parse statements until `}` or EOF. -/
def parse_block_items (tokens : List Token) : Nat → Nat → List Nodes.Statement →
    POut (List Nodes.Statement)
  | 0, _, _ => .fuelOut
  | fuel + 1, pos, acc =>
      if pos ≥ tokens.length ∨ check tokens Tokens.is_right_brace pos then .ok acc pos
      else
        (parse_statement tokens fuel pos).bind fun stmt p =>
        parse_block_items tokens fuel p (acc ++ [stmt])
termination_by structural fuel _ _ => fuel


/-- `CarbideParser::parse_block_statement`. -/
def parse_block_statement (tokens : List Token) : Nat → Nat → POut Nodes.Statement
  | 0, _ => .fuelOut
  | fuel + 1, pos =>
      (expect tokens Tokens.is_left_brace (str "\x7b") pos).bind fun _ pos1 =>
      (parse_block_items tokens fuel pos1 []).bind fun stmts pos2 =>
      (expect tokens Tokens.is_right_brace (str "\x7d") pos2).bind fun _ pos3 =>
      .ok (.Block stmts) pos3
termination_by structural fuel _ => fuel


/-- `CarbideParser::parse_expression_statement`: expression plus mandatory `;`. -/
def parse_expression_statement (tokens : List Token) : Nat → Nat → POut Nodes.Statement
  | 0, _ => .fuelOut
  | fuel + 1, pos =>
      (parse_expression tokens fuel pos).bind fun expr pos1 =>
      (expect tokens Tokens.is_semicolon (str ";") pos1).bind fun _ pos2 =>
      .ok (.Expression expr) pos2


/-- `CarbideParser::parse_expression`: delegates to assignment. -/
def parse_expression (tokens : List Token) : Nat → Nat → POut Nodes.Expression
  | 0, _ => .fuelOut
  | fuel + 1, pos => parse_assignment tokens fuel pos
termination_by structural fuel _ => fuel


/-- `CarbideParser::parse_assignment`: parse an equality expression; on `=`,
recurse (right-associative) and build `Assignment` with whatever expression was
on the left — no shape check on the target. -/
def parse_assignment (tokens : List Token) : Nat → Nat → POut Nodes.Expression
  | 0, _ => .fuelOut
  | fuel + 1, pos =>
      (parse_equality tokens fuel pos).bind fun expr pos1 =>
      let m := match_token tokens Tokens.is_binop_eq pos1
      if m.1 then
        (parse_assignment tokens fuel m.2).bind fun value p =>
        .ok (.Assignment expr value) p
      else .ok expr pos1
termination_by structural fuel _ => fuel


/-- `CarbideParser::parse_equality`: left operand then the fold loop. -/
def parse_equality (tokens : List Token) : Nat → Nat → POut Nodes.Expression
  | 0, _ => .fuelOut
  | fuel + 1, pos =>
      (parse_comparison tokens fuel pos).bind fun left pos1 =>
      parse_equality_loop tokens fuel left pos1
termination_by structural fuel _ => fuel


/-- The `while` loop of `parse_equality`: fold `==`/`!=` left-associatively. -/
def parse_equality_loop (tokens : List Token) : Nat → Nodes.Expression → Nat →
    POut Nodes.Expression
  | 0, _, _ => .fuelOut
  | fuel + 1, left, pos =>
      match tokens[pos]? with
      | some token =>
          match token.token_type with
          | .BinaryOperator op =>
              match op with
              | .EqEq =>
                  (parse_comparison tokens fuel (pos + 1)).bind fun right p =>
                  parse_equality_loop tokens fuel (.BinaryOp left op right) p
              | .NotEq =>
                  (parse_comparison tokens fuel (pos + 1)).bind fun right p =>
                  parse_equality_loop tokens fuel (.BinaryOp left op right) p
              | _ => .ok left pos
          | _ => .ok left pos
      | none => .ok left pos
termination_by structural fuel _ _ => fuel


/-- `CarbideParser::parse_comparison`: the source just calls `parse_term`. -/
def parse_comparison (tokens : List Token) : Nat → Nat → POut Nodes.Expression
  | 0, _ => .fuelOut
  | fuel + 1, pos => parse_term tokens fuel pos
termination_by structural fuel _ => fuel


/-- `CarbideParser::parse_term`: the source's fold loop matches
`BinaryOperators::Plus | BinaryOperators::Minus`, but the lexer's
`BinaryOperators` enum (`operators.rs`) declares no such variants, so no token
can ever select those arms and the loop always breaks on its first iteration:
`parse_term` reduces to `parse_factor`. -/
def parse_term (tokens : List Token) : Nat → Nat → POut Nodes.Expression
  | 0, _ => .fuelOut
  | fuel + 1, pos => parse_factor tokens fuel pos
termination_by structural fuel _ => fuel


/-- `CarbideParser::parse_factor`: likewise, the source's loop matches
`BinaryOperators::Star | BinaryOperators::Slash`, which do not exist in the
operator enum, so `parse_factor` reduces to `parse_unary`. -/
def parse_factor (tokens : List Token) : Nat → Nat → POut Nodes.Expression
  | 0, _ => .fuelOut
  | fuel + 1, pos => parse_unary tokens fuel pos
termination_by structural fuel _ => fuel


/-- `CarbideParser::parse_unary`: prefix unary operators, else the call chain. -/
def parse_unary (tokens : List Token) : Nat → Nat → POut Nodes.Expression
  | 0, _ => .fuelOut
  | fuel + 1, pos =>
      match tokens[pos]? with
      | some token =>
          match token.token_type with
          | .UnaryOperator op =>
              (parse_unary tokens fuel (pos + 1)).bind fun expr p =>
              .ok (.UnaryOp op expr) p
          | _ => parse_call tokens fuel pos
      | none => parse_call tokens fuel pos
termination_by structural fuel _ => fuel


/-- `CarbideParser::parse_call`: a primary expression then the chain loop. -/
def parse_call (tokens : List Token) : Nat → Nat → POut Nodes.Expression
  | 0, _ => .fuelOut
  | fuel + 1, pos =>
      (parse_primary tokens fuel pos).bind fun expr p =>
      parse_call_loop tokens fuel expr p
termination_by structural fuel _ => fuel


/-- The chain loop of `parse_call`: `(args)` → Call, `[expr]` → Index,
`.identifier` → MemberAccess, until none matches.  (In the member case the
source's `if let` has no else branch: a non-identifier simply leaves the
expression unchanged — unreachable, since `expect` already checked.) -/
def parse_call_loop (tokens : List Token) : Nat → Nodes.Expression → Nat →
    POut Nodes.Expression
  | 0, _, _ => .fuelOut
  | fuel + 1, expr, pos =>
      let mParen := match_token tokens Tokens.is_left_paren pos
      if mParen.1 then
        (finish_call tokens fuel expr mParen.2).bind fun e p =>
        parse_call_loop tokens fuel e p
      else
        let mBracket := match_token tokens Tokens.is_left_bracket pos
        if mBracket.1 then
          (parse_expression tokens fuel mBracket.2).bind fun index p =>
          (expect tokens Tokens.is_right_bracket (str "]") p).bind fun _ p2 =>
          parse_call_loop tokens fuel (.Index expr index) p2
        else
          let mPeriod := match_token tokens Tokens.is_period pos
          if mPeriod.1 then
            (expect tokens Tokens.is_identifier (str "property name") mPeriod.2).bind
              fun memberToken p =>
            match memberToken.token_type with
            | .Identifier name => parse_call_loop tokens fuel (.MemberAccess expr name) p
            | _ => parse_call_loop tokens fuel expr p
          else .ok expr pos
termination_by structural fuel _ _ => fuel


/-- The argument loop of `finish_call`: expressions separated by commas. -/
def parse_args_loop (tokens : List Token) : Nat → Nat → List Nodes.Expression →
    POut (List Nodes.Expression)
  | 0, _, _ => .fuelOut
  | fuel + 1, pos, acc =>
      (parse_expression tokens fuel pos).bind fun arg p =>
      let m := match_token tokens Tokens.is_comma p
      if m.1 then parse_args_loop tokens fuel m.2 (acc ++ [arg])
      else .ok (acc ++ [arg]) p
termination_by structural fuel _ _ => fuel


/-- `CarbideParser::finish_call`: the argument list after a consumed `(`. -/
def finish_call (tokens : List Token) : Nat → Nodes.Expression → Nat →
    POut Nodes.Expression
  | 0, _, _ => .fuelOut
  | fuel + 1, callee, pos =>
      ((if check tokens Tokens.is_right_paren pos then .ok [] pos
        else parse_args_loop tokens fuel pos [] : POut (List Nodes.Expression))).bind
        fun args p =>
      (expect tokens Tokens.is_right_paren (str ")") p).bind fun _ p2 =>
      .ok (.Call callee args) p2
termination_by structural fuel _ _ => fuel


/-- The element loop of `parse_primary`'s array-literal case. -/
def parse_array_items (tokens : List Token) : Nat → Nat → List Nodes.Expression →
    POut (List Nodes.Expression)
  | 0, _, _ => .fuelOut
  | fuel + 1, pos, acc =>
      (parse_expression tokens fuel pos).bind fun element p =>
      let m := match_token tokens Tokens.is_comma p
      if m.1 then parse_array_items tokens fuel m.2 (acc ++ [element])
      else .ok (acc ++ [element]) p
termination_by structural fuel _ _ => fuel


/-- `CarbideParser::parse_primary`: literals (all numeric radices fold to
`LiteralValue::Int`), interpolated strings (parts parsed before the token is
consumed), identifiers (`true`/`false` become `Bool` literals), grouped
expressions, and array literals. -/
def parse_primary (tokens : List Token) : Nat → Nat → POut Nodes.Expression
  | 0, _ => .fuelOut
  | fuel + 1, pos =>
      match tokens[pos]? with
      | some token =>
          match token.token_type with
          | .FloatLiteral raw => .ok (.Literal (.Float raw)) (pos + 1)
          | .StringLiteral s => .ok (.Literal (.String s)) (pos + 1)
          | .IntLiteral v => .ok (.Literal (.Int v)) (pos + 1)
          | .HexLiteral v => .ok (.Literal (.Int v)) (pos + 1)
          | .BinaryLiteral v => .ok (.Literal (.Int v)) (pos + 1)
          | .InterpolatedString parts =>
              (parse_interpolated_string tokens fuel parts pos []).bind fun stringParts _ =>
              .ok (.InterpolatedString stringParts) (pos + 1)
          | .Identifier name =>
              if name = str "true" ∨ name = str "false" then
                .ok (.Literal (.Bool (name = str "true"))) (pos + 1)
              else .ok (.Identifier name) (pos + 1)
          | .LeftParen =>
              (parse_expression tokens fuel (pos + 1)).bind fun expr p =>
              (expect tokens Tokens.is_right_paren (str ")") p).bind fun _ p2 =>
              .ok (.Grouped expr) p2
          | .LeftBracket =>
              ((if check tokens Tokens.is_right_bracket (pos + 1) then .ok [] (pos + 1)
                else parse_array_items tokens fuel (pos + 1) [] :
                  POut (List Nodes.Expression))).bind fun elements p =>
              (expect tokens Tokens.is_right_bracket (str "]") p).bind fun _ p2 =>
              .ok (.Array elements) p2
          | _ => .err (.UnexpectedToken (str "expression") token) pos
      | none =>
          match p_current_location tokens pos with
          | some loc => .err (.UnexpectedEOF loc) pos
          | none => .panicked
termination_by structural fuel _ => fuel


/-- `CarbideParser::parse_interpolated_string` (takes `&self`: the outer cursor
does not move).  Each `Interpolation` fragment is re-lexed with `lex_strict` — a
lexing failure is replaced by `ExpectedExpression(self.current_location())` —
and then re-parsed by a fresh mini parser's `parse_expression`, whose failure
propagates unchanged via `?`. -/
def parse_interpolated_string (tokens : List Token) : Nat → List StringPart → Nat →
    List Nodes.StringPart → POut (List Nodes.StringPart)
  | 0, _, _, _ => .fuelOut
  | _ + 1, [], pos, acc => .ok acc pos
  | fuel + 1, part :: rest, pos, acc =>
      match part with
      | .Text text => parse_interpolated_string tokens fuel rest pos (acc ++ [.Text text])
      | .Interpolation code =>
          match lex_strict code with
          | none => .fuelOut
          | some (.error _) =>
              match p_current_location tokens pos with
              | some loc => .err (.ExpectedExpression loc) pos
              | none => .panicked
          | some (.ok miniTokens) =>
              match parse_expression miniTokens fuel 0 with
              | .ok expr _ =>
                  parse_interpolated_string tokens fuel rest pos (acc ++ [.Expression expr])
              | .err e _ => .err e pos
              | .panicked => .panicked
              | .fuelOut => .fuelOut
termination_by structural fuel _ _ _ => fuel


/-- The parameter loop of `parse_function_declaration`. -/
def parse_params_loop (tokens : List Token) : Nat → Nat → List Nodes.Parameter →
    POut (List Nodes.Parameter)
  | 0, _, _ => .fuelOut
  | fuel + 1, pos, acc =>
      (expect tokens Tokens.is_identifier (str "parameter name") pos).bind fun paramToken p =>
      match paramToken.token_type with
      | .Identifier paramName =>
          let mColon := match_token tokens Tokens.is_colon p
          ((if mColon.1 then
              (parse_type tokens fuel mColon.2).bind fun t p2 => .ok (some t) p2
            else .ok none mColon.2 : POut (Option Nodes.Type'))).bind fun ta p2 =>
          let acc' := acc ++ [⟨paramName, ta⟩]
          let mComma := match_token tokens Tokens.is_comma p2
          if mComma.1 then parse_params_loop tokens fuel mComma.2 acc'
          else .ok acc' p2
      | _ => .err (.ExpectedIdentifier paramToken) p
termination_by structural fuel _ _ => fuel


/-- `CarbideParser::parse_function_declaration`.  In the "function body" error
branch the source clones `self.peek().unwrap_unchecked()`: with no token left
this is undefined behaviour, modelled as `panicked`. -/
def parse_function_declaration (tokens : List Token) : Nat → Nat → POut Nodes.Statement
  | 0, _ => .fuelOut
  | fuel + 1, pos =>
      (expect tokens Tokens.is_kw_fn (str "fn") pos).bind fun _ pos1 =>
      (expect tokens Tokens.is_identifier (str "identifier") pos1).bind fun nameToken pos2 =>
      match nameToken.token_type with
      | .Identifier n =>
          (expect tokens Tokens.is_left_paren (str "(") pos2).bind fun _ pos3 =>
          ((if check tokens Tokens.is_right_paren pos3 then .ok [] pos3
            else parse_params_loop tokens fuel pos3 [] :
              POut (List Nodes.Parameter))).bind fun parameters pos4 =>
          (expect tokens Tokens.is_right_paren (str ")") pos4).bind fun _ pos5 =>
          let mArrow := match_token tokens Tokens.is_thin_arrow pos5
          ((if mArrow.1 then
              (parse_type tokens fuel mArrow.2).bind fun t p => .ok (some t) p
            else .ok none mArrow.2 : POut (Option Nodes.Type'))).bind
            fun return_type pos6 =>
          if check tokens Tokens.is_left_brace pos6 then
            (parse_block_statement tokens fuel pos6).bind fun blockStmt pos7 =>
            match blockStmt with
            | .Block stmts => .ok (.FunctionDeclaration n parameters return_type stmts) pos7
            | _ => .ok (.FunctionDeclaration n parameters return_type []) pos7
          else
            match tokens[pos6]? with
            | some t => .err (.UnexpectedToken (str "function body") t) pos6
            | none => .panicked
      | _ => .err (.ExpectedIdentifier nameToken) pos2
termination_by structural fuel _ => fuel


/-- `CarbideParser::parse_return`: `return` requires an expression and a `;`. -/
def parse_return (tokens : List Token) : Nat → Nat → POut Nodes.Statement
  | 0, _ => .fuelOut
  | fuel + 1, pos =>
      (expect tokens Tokens.is_kw_return (str "return") pos).bind fun _ pos1 =>
      (parse_expression tokens fuel pos1).bind fun returnExpr pos2 =>
      (expect tokens Tokens.is_semicolon (str ";") pos2).bind fun _ pos3 =>
      .ok (.Return (some returnExpr)) pos3
end

/-- `ParseResult`: the AST and the collected diagnostics. -/
structure ParseResult where
  ast : List Nodes.Statement
  errors : List CarbideParserError

/-- Top-level outcome of `CarbideParser::parse`: a result, the
`current_location` panic/UB, or fuel (native stack) exhaustion. -/
inductive ParseOut where
  | res (r : ParseResult)
  | panicked
  | fuelOut

/-- The statement loop of `CarbideParser::parse`: collect statements, record
errors and synchronize after each one. -/
def parse_go (tokens : List Token) (exprFuel : Nat) :
    Nat → Nat → List Nodes.Statement → List CarbideParserError → ParseOut
  | 0, _, _, _ => .fuelOut
  | fuel + 1, pos, stmts, errs =>
      if pos ≥ tokens.length then .res ⟨stmts, errs⟩
      else
        match parse_statement tokens exprFuel pos with
        | .ok stmt p => parse_go tokens exprFuel fuel p (stmts ++ [stmt]) errs
        | .err e p => parse_go tokens exprFuel fuel (synchronize tokens p) stmts (errs ++ [e])
        | .panicked => .panicked
        | .fuelOut => .fuelOut

/-- `CarbideParser::parse`: run the statement loop from position 0.  The loop
fuel `tokens.length + 1` is sufficient (proven below); `exprFuel` bounds the
recursion depth of `parse_statement` (the Rust native stack). -/
def parse (tokens : List Token) (exprFuel : Nat) : ParseOut :=
  parse_go tokens exprFuel (tokens.length + 1) 0 [] []

/-- The full front-end pipeline on a source string: lex it, then parse the
resulting tokens with the given expression fuel (`none` if lexing fuel ran out,
which never happens by `lex_go_ne_none` below). -/
def parse_src (s : String) (exprFuel : Nat) : Option ParseOut :=
  match lex (str s) with
  | some r => some (parse r.tokens exprFuel)
  | none => none

/-- The cursor state a lexer subroutine left behind (`fuelOut` has none). -/
def LexOut.state? : LexOut α → Option LexerState
  | .ok _ st => some st
  | .err _ st => some st
  | .fuelOut => none

/-- The cursor position a parser subroutine left behind (`panicked`/`fuelOut`
have none). -/
def POut.pos? : POut α → Option Nat
  | .ok _ p => some p
  | .err _ p => some p
  | .panicked => none
  | .fuelOut => none

/-!
## Theorems

First, cursor monotonicity and progress for every lexer loop, and sufficiency of
the fuel supplied by the entry points; then the token-slice invariant; then
position monotonicity for the parser; finally the claim theorems.
-/

theorem next_pos_of_lt {src : List Char} {st : LexerState} (h : st.pos < src.length) :
    ((next src st).2).pos = st.pos + 1 := by
  obtain ⟨c, hc⟩ : ∃ c, src[st.pos]? = some c := ⟨src[st.pos], List.getElem?_eq_getElem h⟩
  simp only [next, hc]
  split <;> rfl

theorem next_of_ge {src : List Char} {st : LexerState} (h : src.length ≤ st.pos) :
    (next src st).2 = st := by
  unfold next
  rw [List.getElem?_eq_none h]

theorem next_pos_ge {src : List Char} (st : LexerState) :
    st.pos ≤ ((next src st).2).pos := by
  rcases lt_or_ge st.pos src.length with h | h
  · rw [next_pos_of_lt h]; omega
  · rw [next_of_ge h]

theorem consume_while_pos_ge {src : List Char} (cond : Char → Bool) (fuel : Nat)
    (st : LexerState) : st.pos ≤ (consume_while src cond fuel st).pos := by
  induction fuel generalizing st with
  | zero => simp [consume_while]
  | succ fuel ih =>
    unfold consume_while
    cases h : src[st.pos]? with
    | none => simp
    | some c =>
      simp only
      split
      · exact le_trans (next_pos_ge st) (ih _)
      · simp

theorem recover_go_pos_ge {src : List Char} (fuel : Nat) (st : LexerState) :
    st.pos ≤ (recover_go src fuel st).pos := by
  induction fuel generalizing st with
  | zero => simp [recover_go]
  | succ fuel ih =>
    unfold recover_go
    cases h : src[st.pos]? with
    | none => simp
    | some c =>
      simp only
      split
      · simp
      · exact le_trans (next_pos_ge st) (ih _)

theorem recover_from_error_pos_ge {src : List Char} (st : LexerState) :
    st.pos ≤ (recover_from_error src st).pos :=
  le_trans (next_pos_ge st) (recover_go_pos_ge _ _)

/-- `recover_from_error` strictly advances the cursor whenever it is not at EOF. -/
theorem recover_from_error_progress {src : List Char} {st : LexerState}
    (h : st.pos < src.length) : st.pos < (recover_from_error src st).pos := by
  have h1 : ((next src st).2).pos = st.pos + 1 := next_pos_of_lt h
  have h2 := @recover_go_pos_ge src (src.length + 1) (next src st).2
  unfold recover_from_error
  omega

/-- At EOF, `recover_from_error` consumes nothing: the initial `self.next()` is a
no-op and the scan loop exits at once. -/
theorem recover_from_error_at_eof {src : List Char} {st : LexerState}
    (h : src.length ≤ st.pos) : recover_from_error src st = st := by
  unfold recover_from_error
  rw [next_of_ge h]
  unfold recover_go
  rw [List.getElem?_eq_none h]

theorem starts_with_at_pos_lt {src : List Char} {st : LexerState} {c : Char} {cs : List Char}
    (h : starts_with_at src st (c :: cs) = true) : st.pos < src.length := by
  have hp : (c :: cs) <+: src.drop st.pos := by
    simpa [starts_with_at, List.isPrefixOf_iff_prefix] using h
  have := hp.length_le
  simp [List.length_drop] at this
  omega

theorem advance2_pos (st : LexerState) :
    (advance2 st).pos = st.pos + 2 := rfl

theorem skip_nested_go_state_ge {src : List Char} {loc : SourceLocation} :
    ∀ fuel depth (st st' : LexerState),
      (skip_nested_comment_go src loc fuel depth st).state? = some st' →
      st.pos ≤ st'.pos := by
  intro fuel
  induction fuel with
  | zero => intro d st st' h; simp [skip_nested_comment_go, LexOut.state?] at h
  | succ fuel ih =>
    intro d st st' h
    unfold skip_nested_comment_go at h
    split at h
    · split at h <;> simp [LexOut.state?] at h <;> simp [← h]
    · split at h
      · have h1 := ih _ _ _ h
        rw [advance2_pos] at h1
        omega
      · split at h
        · have h1 := ih _ _ _ h
          rw [advance2_pos] at h1
          omega
        · have h1 := ih _ _ _ h
          have h2 := @next_pos_ge src st
          omega

theorem skip_nested_go_err_at_eof {src : List Char} {loc : SourceLocation} :
    ∀ fuel depth (st st' : LexerState) (e : CarbideLexerError),
      skip_nested_comment_go src loc fuel depth st = .err e st' →
      src.length ≤ st'.pos := by
  intro fuel
  induction fuel with
  | zero => intro d st st' e h; simp [skip_nested_comment_go] at h
  | succ fuel ih =>
    intro d st st' e h
    unfold skip_nested_comment_go at h
    split at h
    · rename_i hexit
      split at h
      · cases h
        omega
      · simp at h
    · split at h
      · exact ih _ _ _ _ h
      · split at h
        · exact ih _ _ _ _ h
        · exact ih _ _ _ _ h

theorem skip_nested_go_ne_fuelOut {src : List Char} {loc : SourceLocation} :
    ∀ fuel depth (st : LexerState), src.length - st.pos < fuel →
      skip_nested_comment_go src loc fuel depth st ≠ .fuelOut := by
  intro fuel
  induction fuel with
  | zero => intro d st h; omega
  | succ fuel ih =>
    intro d st h
    unfold skip_nested_comment_go
    split
    · split <;> simp
    · rename_i hexit
      have hlt : st.pos < src.length := by
        rcases not_or.mp hexit with ⟨h1, _⟩
        omega
      split
      · exact ih _ _ (by rw [advance2_pos]; omega)
      · split
        · exact ih _ _ (by rw [advance2_pos]; omega)
        · have := @next_pos_of_lt src st hlt
          exact ih _ _ (by omega)

theorem skip_ws_go_state_ge {src : List Char} :
    ∀ fuel (st st' : LexerState),
      (skip_ws_go src fuel st).state? = some st' → st.pos ≤ st'.pos := by
  intro fuel
  induction fuel with
  | zero => intro st st' h; simp [skip_ws_go, LexOut.state?] at h
  | succ fuel ih =>
    intro st st' h
    unfold skip_ws_go at h
    split at h
    · have h1 := ih _ _ h
      have h2 := @next_pos_ge src st
      omega
    · split at h
      · have h1 := ih _ _ h
        have h2 := @consume_while_pos_ge src (fun c => c ≠ '\n')
          (src.length + 1) (advance2 st)
        rw [advance2_pos] at h2
        omega
      · split at h
        · split at h
          · rename_i u st1 hsn
            have h1 : st.pos ≤ st1.pos := by
              have h2 := @skip_nested_go_state_ge src _ _ _ _ st1
                (by rw [skip_nested_comment] at hsn; rw [hsn]; rfl)
              rw [advance2_pos] at h2
              omega
            have h3 := ih _ _ h
            omega
          · rename_i e st1 hsn
            cases h
            have h2 := @skip_nested_go_state_ge src _ _ _ _ st'
              (by rw [skip_nested_comment] at hsn; rw [hsn]; rfl)
            rw [advance2_pos] at h2
            omega
          · simp [LexOut.state?] at h
        · simp [LexOut.state?] at h
          simp [← h]

theorem peek_some_pos_lt {src : List Char} {st : LexerState} {c : Char}
    (h : peek src st = some c) : st.pos < src.length :=
  (List.getElem?_eq_some.mp h).1

/-- The whitespace/comment skipper only reports an error (an unclosed block
comment) with the cursor at end of input. -/
theorem skip_ws_go_err_at_eof {src : List Char} :
    ∀ fuel (st st' : LexerState) (e : CarbideLexerError),
      skip_ws_go src fuel st = .err e st' → src.length ≤ st'.pos := by
  intro fuel
  induction fuel with
  | zero => intro st st' e h; simp [skip_ws_go] at h
  | succ fuel ih =>
    intro st st' e h
    unfold skip_ws_go at h
    split at h
    · exact ih _ _ _ h
    · split at h
      · exact ih _ _ _ h
      · split at h
        · split at h
          · exact ih _ _ _ h
          · rename_i e1 st1 hsn
            cases h
            rw [skip_nested_comment] at hsn
            exact skip_nested_go_err_at_eof _ _ _ _ _ hsn
          · simp at h
        · simp at h

theorem skip_ws_go_ne_fuelOut {src : List Char} :
    ∀ fuel (st : LexerState), src.length - st.pos < fuel →
      skip_ws_go src fuel st ≠ .fuelOut := by
  intro fuel
  induction fuel with
  | zero => intro st h; omega
  | succ fuel ih =>
    intro st h
    unfold skip_ws_go
    split
    · rename_i hws
      have hlt : st.pos < src.length := by
        cases hp : peek src st with
        | none => rw [hp] at hws; simp at hws
        | some c => exact peek_some_pos_lt hp
      have h1 := @next_pos_of_lt src st hlt
      exact ih _ (by omega)
    · split
      · rename_i hcm
        have hlt : st.pos < src.length := by
          have he : str "//" = '/' :: ['/'] := rfl
          rw [he] at hcm
          exact starts_with_at_pos_lt hcm
        have h1 := @consume_while_pos_ge src (fun c => c ≠ '\n')
          (src.length + 1) (advance2 st)
        rw [advance2_pos] at h1
        exact ih _ (by omega)
      · split
        · rename_i hcm
          have hlt : st.pos < src.length := by
            have he : str "/*" = '/' :: ['*'] := rfl
            rw [he] at hcm
            exact starts_with_at_pos_lt hcm
          split
          · rename_i u st1 hsn
            have h1 : st.pos + 2 ≤ st1.pos := by
              have h2 := @skip_nested_go_state_ge src _ _ _ _ st1
                (by rw [skip_nested_comment] at hsn; rw [hsn]; rfl)
              rw [advance2_pos] at h2
              omega
            exact ih _ (by omega)
          · simp
          · rename_i hsn
            rw [skip_nested_comment] at hsn
            exact absurd hsn (skip_nested_go_ne_fuelOut _ _ _ (by rw [advance2_pos]; omega))
        · simp

theorem consume_while_progress {src : List Char} {st : LexerState} {c : Char}
    (cond : Char → Bool) {fuel : Nat} (hc : src[st.pos]? = some c)
    (hcond : cond c = true) (hfuel : 0 < fuel) :
    st.pos < (consume_while src cond fuel st).pos := by
  cases fuel with
  | zero => omega
  | succ fuel =>
    have hlt : st.pos < src.length := (List.getElem?_eq_some.mp hc).1
    have h1 := @next_pos_of_lt src st hlt
    unfold consume_while
    rw [hc]
    simp only [hcond, if_true]
    have h2 := @consume_while_pos_ge src cond fuel (next src st).2
    omega

theorem lex_number_scan_pos_ge {src : List Char} :
    ∀ fuel (hasDot : Bool) (st : LexerState),
      st.pos ≤ (lex_number_scan src fuel hasDot st).pos := by
  intro fuel
  induction fuel with
  | zero => intro hd st; simp [lex_number_scan]
  | succ fuel ih =>
    intro hd st
    unfold lex_number_scan
    cases h : src[st.pos]? with
    | none => simp
    | some c =>
      simp only
      split
      · split
        · simp
        · have h1 := @next_pos_ge src st
          have h2 := ih true (next src st).2
          omega
      · split
        · have h1 := @next_pos_ge src st
          have h2 := ih hd (next src st).2
          omega
        · simp

theorem lex_number_scan_progress {src : List Char} {st : LexerState} {c : Char}
    {fuel : Nat} (hc : src[st.pos]? = some c) (hd : is_ascii_digit c = true)
    (hfuel : 0 < fuel) (hasDot : Bool) :
    st.pos < (lex_number_scan src fuel hasDot st).pos := by
  cases fuel with
  | zero => omega
  | succ fuel =>
    have hlt : st.pos < src.length := (List.getElem?_eq_some.mp hc).1
    have h1 := @next_pos_of_lt src st hlt
    have hdot : ¬c = '.' := by
      intro hcc
      rw [hcc] at hd
      simp [is_ascii_digit] at hd
    unfold lex_number_scan
    rw [hc]
    simp only [hdot, if_false, hd, if_true]
    have h2 := @lex_number_scan_pos_ge src fuel hasDot (next src st).2
    omega

theorem lex_identifier_state {src : List Char} (st : LexerState) (start : Nat)
    (startLoc : SourceLocation) :
    (lex_identifier src st start startLoc).state? =
      some (consume_while src (fun c => is_ascii_alphanumeric c || c = '_')
        (src.length + 1) st) := rfl

theorem lex_identifier_progress {src : List Char} {st : LexerState} {c : Char}
    {start : Nat} {startLoc : SourceLocation} (hc : src[st.pos]? = some c)
    (hcond : (is_ascii_alphabetic c || c = '_') = true) :
    ∀ st', (lex_identifier src st start startLoc).state? = some st' →
      st.pos < st'.pos := by
  intro st' h
  rw [lex_identifier_state] at h
  injection h with h
  subst h
  have hcond2 : (is_ascii_alphanumeric c || c = '_') = true := by
    simp only [is_ascii_alphanumeric]
    rcases Bool.or_eq_true_iff.mp hcond with h1 | h1 <;> simp [h1]
  exact @consume_while_progress src st _
    (fun c => is_ascii_alphanumeric c || c = '_') _ hc hcond2 (by omega)

theorem lex_number_progress {src : List Char} {st : LexerState} {c : Char}
    {start : Nat} {startLoc : SourceLocation} (hc : src[st.pos]? = some c)
    (hd : is_ascii_digit c = true) :
    ∀ st', (lex_number src st start startLoc).state? = some st' →
      st.pos < st'.pos := by
  intro st' h
  simp only [lex_number] at h
  split at h
  · have h1 := @consume_while_pos_ge src (fun c => is_ascii_hexdigit c)
      (src.length + 1) (advance2 st)
    rw [advance2_pos] at h1
    split at h
    · simp [LexOut.state?] at h
      subst h
      omega
    · split at h <;> simp [LexOut.state?] at h <;> subst h <;> omega
  · split at h
    · have h1 := @consume_while_pos_ge src (fun c => c = '0' || c = '1')
        (src.length + 1) (advance2 st)
      rw [advance2_pos] at h1
      split at h
      · simp [LexOut.state?] at h
        subst h
        omega
      · split at h <;> simp [LexOut.state?] at h <;> subst h <;> omega
    · have h1 := @lex_number_scan_progress src st _ _ hc hd
        (by omega : (0:Nat) < src.length + 1) false
      split at h
      · split at h <;> simp [LexOut.state?] at h <;> subst h <;> omega
      · split at h <;> simp [LexOut.state?] at h <;> subst h <;> omega

theorem lex_number_ne_fuelOut {src : List Char} (st : LexerState) (start : Nat)
    (startLoc : SourceLocation) : lex_number src st start startLoc ≠ .fuelOut := by
  simp only [lex_number]
  split
  · split
    · simp
    · split <;> simp
  · split
    · split
      · simp
      · split <;> simp
    · split
      · split <;> simp
      · split <;> simp

theorem lex_operator_progress {src : List Char} {st : LexerState} {c : Char}
    {start : Nat} {startLoc : SourceLocation} (hc : src[st.pos]? = some c) :
    ∀ st', (lex_operator src st start startLoc).state? = some st' →
      st.pos < st'.pos := by
  intro st' h
  have hlt : st.pos < src.length := (List.getElem?_eq_some.mp hc).1
  have h1 : ((next src st).2).pos = st.pos + 1 := next_pos_of_lt hlt
  have hn : next src st = (some c, (next src st).2) := by
    conv => lhs; unfold next
    conv => rhs; rw [next]
    rw [hc]
  simp only [lex_operator] at h
  rw [hn] at h
  simp only at h
  have h2 := @next_pos_ge src (next src st).2
  split at h
  · split at h
    · split at h <;> simp [LexOut.state?] at h <;> subst h <;> omega
    · split at h
      · split at h <;> simp [LexOut.state?] at h <;> subst h <;> omega
      · split at h
        · simp [LexOut.state?] at h
          subst h
          omega
        · split at h <;> simp [LexOut.state?] at h <;> subst h <;> omega
  · split at h
    · simp [LexOut.state?] at h
      subst h
      omega
    · split at h <;> simp [LexOut.state?] at h <;> subst h <;> omega

theorem lex_operator_ne_fuelOut {src : List Char} (st : LexerState) (start : Nat)
    (startLoc : SourceLocation) : lex_operator src st start startLoc ≠ .fuelOut := by
  simp only [lex_operator]
  split
  · simp
  · split
    · split
      · split <;> simp
      · split
        · split <;> simp
        · split
          · simp
          · split <;> simp
    · split
      · simp
      · split <;> simp

theorem lex_single_char_ok {src : List Char} {st st₂ : LexerState} {start : Nat}
    {startLoc : SourceLocation} {a : Option Token}
    (h : lex_single_char src st start startLoc = .ok a st₂) :
    st.pos ≤ st₂.pos ∧ (a.isSome → st.pos < st₂.pos) := by
  simp only [lex_single_char] at h
  split at h
  · rename_i c hp
    have hlt : st.pos < src.length := peek_some_pos_lt hp
    have h1 : ((next src st).2).pos = st.pos + 1 := next_pos_of_lt hlt
    split at h
    · split at h
      · cases h
        exact ⟨by omega, fun _ => by omega⟩
      · cases h
        exact ⟨by omega, by simp⟩
    · cases h
      exact ⟨le_refl _, by simp⟩
  · cases h
    exact ⟨le_refl _, by simp⟩

theorem lex_single_char_not_err {src : List Char} (st : LexerState) (start : Nat)
    (startLoc : SourceLocation) :
    ∀ e st₂, lex_single_char src st start startLoc ≠ .err e st₂ := by
  intro e st₂
  simp only [lex_single_char]
  split
  · split
    · split <;> simp
    · simp
  · simp

theorem lex_single_char_ne_fuelOut {src : List Char} (st : LexerState) (start : Nat)
    (startLoc : SourceLocation) : lex_single_char src st start startLoc ≠ .fuelOut := by
  simp only [lex_single_char]
  split
  · split
    · split <;> simp
    · simp
  · simp

theorem lex_string_go_state_ge {src : List Char} {startLoc : SourceLocation} :
    ∀ fuel (hi : Bool) (st st' : LexerState),
      (lex_string_go src startLoc fuel hi st).state? = some st' → st.pos ≤ st'.pos := by
  intro fuel
  induction fuel with
  | zero => intro hi st st' h; simp [lex_string_go, LexOut.state?] at h
  | succ fuel ih =>
    intro hi st st' h
    simp only [lex_string_go] at h
    split at h
    · simp [LexOut.state?] at h
      simp [← h]
    · split at h
      · split at h
        · simp [LexOut.state?] at h
          simp [← h]
        · split at h
          · have h2 := @next_pos_ge src st
            have h3 := @next_pos_ge src (next src st).2
            split at h
            · have := ih _ _ _ h
              omega
            · have := ih _ _ _ h
              omega
          · split at h
            · have h2 := @next_pos_ge src st
              have := ih _ _ _ h
              omega
            · have h2 := @next_pos_ge src st
              have := ih _ _ _ h
              omega
      · simp [LexOut.state?] at h
        simp [← h]

theorem lex_string_go_ne_fuelOut {src : List Char} {startLoc : SourceLocation} :
    ∀ fuel (hi : Bool) (st : LexerState), src.length - st.pos < fuel →
      lex_string_go src startLoc fuel hi st ≠ .fuelOut := by
  intro fuel
  induction fuel with
  | zero => intro hi st h; omega
  | succ fuel ih =>
    intro hi st h
    simp only [lex_string_go]
    split
    · simp
    · rename_i hguard
      have hlt : st.pos < src.length := by omega
      have h1 : ((next src st).2).pos = st.pos + 1 := next_pos_of_lt hlt
      split
      · split
        · simp
        · split
          · have h3 := @next_pos_ge src (next src st).2
            split
            · exact ih _ _ (by omega)
            · exact ih _ _ (by omega)
          · split
            · exact ih _ _ (by omega)
            · exact ih _ _ (by omega)
      · simp

theorem interp_text_scan_ge (raw : List Char) :
    ∀ fuel (te : Nat) (esc : Bool), te ≤ interp_text_scan raw fuel te esc := by
  intro fuel
  induction fuel with
  | zero => intro te esc; simp [interp_text_scan]
  | succ fuel ih =>
    intro te esc
    unfold interp_text_scan
    split
    · omega
    · split
      · have := ih (te + 1) false
        omega
      · split
        · have := ih (te + 1) true
          omega
        · omega
        · have := ih (te + 1) false
          omega

theorem interp_brace_scan_snd_ge (raw : List Char) :
    ∀ fuel (depth te : Nat), te ≤ (interp_brace_scan raw fuel depth te).2 := by
  intro fuel
  induction fuel with
  | zero => intro d te; simp [interp_brace_scan]
  | succ fuel ih =>
    intro d te
    unfold interp_brace_scan
    split
    · omega
    · simp only
      split
      · exact le_trans (Nat.le_succ te) (ih _ _)
      · omega

theorem lex_interpolated_go_ne_fuelOut (raw : List Char) (loc : SourceLocation) :
    ∀ fuel (current : Nat), raw.length - current < fuel →
      lex_interpolated_go raw loc fuel current ≠ .fuelOut := by
  intro fuel
  induction fuel with
  | zero => intro current h; omega
  | succ fuel ih =>
    intro current h
    simp only [lex_interpolated_go]
    split
    · simp
    · rename_i hcur
      have hc : current < raw.length := by omega
      have htext := interp_text_scan_ge raw (raw.length + 1) current false
      split
      · simp
      · rename_i hte
        have hte2 : interp_text_scan raw (raw.length + 1) current false < raw.length := by
          omega
        split
        · split
          · simp
          · have hbr := interp_brace_scan_snd_ge raw (raw.length + 1) 1
              (interp_text_scan raw (raw.length + 1) current false + 1)
            split
            · simp
            · simp
            · rename_i hrec
              exact absurd hrec (ih _ (by omega))
        · simp

theorem lex_interpolated_string_ne_fuelOut (raw : List Char) (loc : SourceLocation) :
    lex_interpolated_string raw loc ≠ .fuelOut :=
  lex_interpolated_go_ne_fuelOut raw loc (raw.length + 1) 0 (by omega)

theorem lex_string_ne_fuelOut {src : List Char} (st : LexerState) (start : Nat)
    (startLoc : SourceLocation) : lex_string src st start startLoc ≠ .fuelOut := by
  simp only [lex_string]
  split
  · split
    · split
      · simp
      · rename_i hgo
        exact absurd hgo (lex_string_go_ne_fuelOut _ _ _ (by omega))
      · split
        · split
          · simp
          · simp
          · rename_i hint
            exact absurd hint (lex_interpolated_string_ne_fuelOut _ _)
        · simp
    · simp
  · simp

theorem lex_string_progress {src : List Char} {st : LexerState} {start : Nat}
    {startLoc : SourceLocation} (hq : src[st.pos]? = some '"') :
    ∀ st', (lex_string src st start startLoc).state? = some st' → st.pos < st'.pos := by
  intro st' h
  have hlt : st.pos < src.length := (List.getElem?_eq_some.mp hq).1
  have h1 : ((next src st).2).pos = st.pos + 1 := next_pos_of_lt hlt
  have hpk : peek src st = some '"' := hq
  cases hgo : lex_string_go src startLoc (src.length + 1) false (next src st).2 with
  | ok hasInterp stq =>
    have h2 : ((next src st).2).pos ≤ stq.pos :=
      lex_string_go_state_ge _ _ _ _ (by rw [hgo]; rfl)
    have h3 := @next_pos_ge src stq
    simp only [lex_string, hpk, hgo, if_pos] at h
    cases hint : lex_interpolated_string
        (extract src ((next src st).2).pos stq.pos) startLoc with
    | ok parts =>
      rw [hint] at h
      split at h <;> simp [LexOut.state?] at h <;> subst h <;> omega
    | err e =>
      rw [hint] at h
      split at h <;> simp [LexOut.state?] at h <;> subst h <;> omega
    | fuelOut =>
      rw [hint] at h
      split at h <;> simp [LexOut.state?] at h
      subst h
      omega
  | err e stq =>
    have h2 : ((next src st).2).pos ≤ stq.pos :=
      lex_string_go_state_ge _ _ _ _ (by rw [hgo]; rfl)
    simp only [lex_string, hpk, hgo, if_pos] at h
    simp [LexOut.state?] at h
    subst h
    omega
  | fuelOut =>
    simp only [lex_string, hpk, hgo, if_pos] at h
    simp [LexOut.state?] at h

theorem lex_string_not_ok_none {src : List Char} {st : LexerState} {start : Nat}
    {startLoc : SourceLocation} (hq : src[st.pos]? = some '"') :
    ∀ st₂, lex_string src st start startLoc ≠ .ok none st₂ := by
  intro st₂
  have hpk : peek src st = some '"' := hq
  cases hgo : lex_string_go src startLoc (src.length + 1) false (next src st).2 with
  | ok hasInterp stq =>
    simp only [lex_string, hpk, hgo, if_pos]
    cases hint : lex_interpolated_string
        (extract src ((next src st).2).pos stq.pos) startLoc with
    | ok parts => split <;> simp
    | err e => split <;> simp
    | fuelOut => split <;> simp
  | err e stq => simp [lex_string, hpk, hgo]
  | fuelOut => simp [lex_string, hpk, hgo]

/-- The main lexer loop never exhausts its fuel when given more fuel than there
are characters left: every iteration that continues strictly advances the
cursor. -/
theorem lex_go_ne_none {src : List Char} :
    ∀ fuel (st : LexerState) (tokens : List Token) (errors : List CarbideLexerError),
      src.length - st.pos < fuel → lex_go src fuel st tokens errors ≠ none := by
  intro fuel
  induction fuel with
  | zero => intro st toks errs h; omega
  | succ fuel ih =>
    intro st toks errs h
    simp only [lex_go]
    split
    · simp
    · rename_i heof
      have hlt : st.pos < src.length := by omega
      split
    -- skip_whitespace_and_comments: err, ok, fuelOut (source order: fuelOut, err, ok)
      · -- fuelOut: impossible
        rename_i hws
        rw [skip_whitespace_and_comments] at hws
        exact absurd hws (skip_ws_go_ne_fuelOut _ _ (by omega))
      · -- err e st1: the only lexer error raised here is an unclosed comment,
        -- reported with the cursor at end of input; recovery is then a no-op.
        rename_i e st1 hws
        rw [skip_whitespace_and_comments] at hws
        have h1 : src.length ≤ st1.pos := skip_ws_go_err_at_eof _ _ _ _ hws
        have h2 : st1.pos ≤ (recover_from_error src st1).pos := recover_from_error_pos_ge st1
        exact ih _ _ _ (by omega)
      · -- ok () st1
        rename_i u st1 hws
        rw [skip_whitespace_and_comments] at hws
        have h1 : st.pos ≤ st1.pos :=
          skip_ws_go_state_ge _ _ _ (by rw [hws]; rfl)
        split
        · simp
        · rename_i heof1
          have hlt1 : st1.pos < src.length := by omega
          split
          · simp
          · rename_i ch hp
            have hc : src[st1.pos]? = some ch := hp
            split
            · -- non-ASCII
              have h2 := @recover_from_error_progress src st1 hlt1
              exact ih _ _ _ (by omega)
            · split
              · -- identifier
                rename_i hcond
                split
                · rename_i t st2 hid
                  have h2 := lex_identifier_progress hc hcond st2 (by rw [hid]; rfl)
                  exact ih _ _ _ (by omega)
                · rename_i e st2 hid
                  have h2 := lex_identifier_progress hc hcond st2 (by rw [hid]; rfl)
                  have h3 := @recover_from_error_pos_ge src st2
                  exact ih _ _ _ (by omega)
                · rename_i hid
                  simp [lex_identifier] at hid
              · split
                · -- string
                  rename_i hquote
                  have hq : src[st1.pos]? = some '"' := by rw [hc, hquote]
                  split
                  · rename_i t st2 hs
                    have h2 := lex_string_progress hq st2 (by rw [hs]; rfl)
                    exact ih _ _ _ (by omega)
                  · rename_i st2 hs
                    exact absurd hs (lex_string_not_ok_none hq st2)
                  · rename_i e st2 hs
                    have h2 := lex_string_progress hq st2 (by rw [hs]; rfl)
                    have h3 := @recover_from_error_pos_ge src st2
                    exact ih _ _ _ (by omega)
                  · rename_i hs
                    exact absurd hs (lex_string_ne_fuelOut _ _ _)
                · split
                  · -- number
                    rename_i hdig
                    split
                    · rename_i t st2 hn
                      have h2 := lex_number_progress hc hdig st2 (by rw [hn]; rfl)
                      exact ih _ _ _ (by omega)
                    · rename_i e st2 hn
                      have h2 := lex_number_progress hc hdig st2 (by rw [hn]; rfl)
                      have h3 := @recover_from_error_pos_ge src st2
                      exact ih _ _ _ (by omega)
                    · rename_i hn
                      exact absurd hn (lex_number_ne_fuelOut _ _ _)
                  · split
                    · -- operator
                      split
                      · rename_i t st2 hop
                        have h2 := lex_operator_progress hc st2 (by rw [hop]; rfl)
                        exact ih _ _ _ (by omega)
                      · rename_i e st2 hop
                        have h2 := lex_operator_progress hc st2 (by rw [hop]; rfl)
                        have h3 := @recover_from_error_pos_ge src st2
                        exact ih _ _ _ (by omega)
                      · rename_i hop
                        exact absurd hop (lex_operator_ne_fuelOut _ _ _)
                    · -- single char / unexpected char
                      split
                      · rename_i t st2 hsc
                        have h2 := (lex_single_char_ok hsc).2 (by simp)
                        exact ih _ _ _ (by omega)
                      · rename_i st2 hsc
                        have h2 := (lex_single_char_ok hsc).1
                        have h3 := @recover_from_error_pos_ge src st2
                        rcases Nat.lt_or_ge st2.pos src.length with hcase | hcase
                        · have h4 := @recover_from_error_progress src st2 hcase
                          exact ih _ _ _ (by omega)
                        · exact ih _ _ _ (by omega)
                      · rename_i e st2 hsc
                        exact absurd hsc (lex_single_char_not_err _ _ _ _ _)
                      · rename_i hsc
                        exact absurd hsc (lex_single_char_ne_fuelOut _ _ _)

/-- `CarbideLexer::lex` always returns a result: lexing terminates on every
finite input. -/
theorem lex_isSome (src : List Char) : (lex src).isSome := by
  have h := @lex_go_ne_none src (src.length + 1) (from_src) [] []
    (by simp [from_src])
  unfold lex
  cases hx : lex_go src (src.length + 1) (from_src) [] [] with
  | none => exact absurd hx (by exact h)
  | some r => simp

/-!
### The round-trip slice invariant

Every token constructor in the lexer stores `&self.src[start..end]` together with
the span `start..end`; the following lemmas record that fact per subroutine, and
the loop invariant propagates it.
-/

theorem lex_identifier_token {src : List Char} {st st' : LexerState} {start : Nat}
    {startLoc : SourceLocation} {t : Token}
    (h : lex_identifier src st start startLoc = .ok t st') :
    t.src = extract src t.span.1 t.span.2 := by
  simp only [lex_identifier] at h
  cases h
  rfl

theorem lex_number_token {src : List Char} {st st' : LexerState} {start : Nat}
    {startLoc : SourceLocation} {t : Token}
    (h : lex_number src st start startLoc = .ok t st') :
    t.src = extract src t.span.1 t.span.2 := by
  simp only [lex_number] at h
  split at h
  · split at h
    · simp at h
    · split at h
      · cases h
        rfl
      · simp at h
  · split at h
    · split at h
      · simp at h
      · split at h
        · cases h
          rfl
        · simp at h
    · split at h
      · split at h
        · cases h
          rfl
        · simp at h
      · split at h
        · cases h
          rfl
        · simp at h

theorem lex_operator_token {src : List Char} {st st' : LexerState} {start : Nat}
    {startLoc : SourceLocation} {t : Token}
    (h : lex_operator src st start startLoc = .ok t st') :
    t.src = extract src t.span.1 t.span.2 := by
  simp only [lex_operator] at h
  split at h
  · simp at h
  · split at h
    · split at h
      · split at h
        · cases h
          rfl
        · simp at h
      · split at h
        · split at h
          · cases h
            rfl
          · simp at h
        · split at h
          · cases h
            rfl
          · split at h
            · cases h
              rfl
            · simp at h
    · split at h
      · cases h
        rfl
      · split at h
        · cases h
          rfl
        · simp at h

theorem lex_single_char_token {src : List Char} {st st' : LexerState} {start : Nat}
    {startLoc : SourceLocation} {t : Token}
    (h : lex_single_char src st start startLoc = .ok (some t) st') :
    t.src = extract src t.span.1 t.span.2 := by
  simp only [lex_single_char] at h
  split at h
  · split at h
    · split at h
      · cases h
        rfl
      · simp at h
    · simp at h
  · simp at h

theorem lex_string_token {src : List Char} {st st' : LexerState} {start : Nat}
    {startLoc : SourceLocation} {t : Token}
    (h : lex_string src st start startLoc = .ok (some t) st') :
    t.src = extract src t.span.1 t.span.2 := by
  simp only [lex_string] at h
  split at h
  · split at h
    · split at h
      · simp at h
      · simp at h
      · split at h
        · split at h
          · cases h
            rfl
          · simp at h
          · simp at h
        · cases h
          rfl
    · simp at h
  · simp at h

/-- Loop invariant: every token `lex_go` ever appends stores exactly the source
slice its span denotes. -/
theorem lex_go_tokens {src : List Char} :
    ∀ fuel (st : LexerState) (toks : List Token) (errs : List CarbideLexerError)
      (r : LexResult), lex_go src fuel st toks errs = some r →
      (∀ t ∈ toks, t.src = extract src t.span.1 t.span.2) →
      ∀ t ∈ r.tokens, t.src = extract src t.span.1 t.span.2 := by
  intro fuel
  induction fuel with
  | zero => intro st toks errs r h hinv; simp [lex_go] at h
  | succ fuel ih =>
    intro st toks errs r h hinv
    simp only [lex_go] at h
    split at h
    · cases h
      exact hinv
    · split at h
      · simp at h
      · exact ih _ _ _ _ h hinv
      · split at h
        · cases h
          exact hinv
        · split at h
          · cases h
            exact hinv
          · split at h
            · exact ih _ _ _ _ h hinv
            · split at h
              · split at h
                · rename_i t st2 hid
                  refine ih _ _ _ _ h ?_
                  intro t' ht'
                  rcases List.mem_append.mp ht' with h1 | h1
                  · exact hinv t' h1
                  · simp at h1
                    subst h1
                    exact lex_identifier_token hid
                · exact ih _ _ _ _ h hinv
                · simp at h
              · split at h
                · split at h
                  · rename_i t st2 hs
                    refine ih _ _ _ _ h ?_
                    intro t' ht'
                    rcases List.mem_append.mp ht' with h1 | h1
                    · exact hinv t' h1
                    · simp at h1
                      subst h1
                      exact lex_string_token hs
                  · exact ih _ _ _ _ h hinv
                  · exact ih _ _ _ _ h hinv
                  · simp at h
                · split at h
                  · split at h
                    · rename_i t st2 hn
                      refine ih _ _ _ _ h ?_
                      intro t' ht'
                      rcases List.mem_append.mp ht' with h1 | h1
                      · exact hinv t' h1
                      · simp at h1
                        subst h1
                        exact lex_number_token hn
                    · exact ih _ _ _ _ h hinv
                    · simp at h
                  · split at h
                    · split at h
                      · rename_i t st2 hop
                        refine ih _ _ _ _ h ?_
                        intro t' ht'
                        rcases List.mem_append.mp ht' with h1 | h1
                        · exact hinv t' h1
                        · simp at h1
                          subst h1
                          exact lex_operator_token hop
                      · exact ih _ _ _ _ h hinv
                      · simp at h
                    · split at h
                      · rename_i t st2 hsc
                        refine ih _ _ _ _ h ?_
                        intro t' ht'
                        rcases List.mem_append.mp ht' with h1 | h1
                        · exact hinv t' h1
                        · simp at h1
                          subst h1
                          exact lex_single_char_token hsc
                      · exact ih _ _ _ _ h hinv
                      · exact ih _ _ _ _ h hinv
                      · simp at h

/-!
### Parser cursor monotonicity

`expect`/`match_token` move the cursor forward by at most one; every parser
subroutine moves it forward (or not at all).  This is the invariant behind the
statement-loop's progress.
-/

theorem expect_pos_le {tokens : List Token} {pat : Tokens → Bool} {s : List Char}
    {pos p : Nat} (h : (expect tokens pat s pos).pos? = some p) : pos ≤ p := by
  unfold expect at h
  split at h
  · split at h <;> simp [POut.pos?] at h <;> omega
  · split at h <;> simp [POut.pos?] at h
    omega

theorem expect_ok_pos {tokens : List Token} {pat : Tokens → Bool} {s : List Char}
    {pos p : Nat} {t : Token} (h : expect tokens pat s pos = .ok t p) : p = pos + 1 := by
  unfold expect at h
  split at h
  · split at h
    · cases h
      rfl
    · simp at h
  · split at h <;> simp at h

theorem match_token_le (tokens : List Token) (pat : Tokens → Bool) (pos : Nat) :
    pos ≤ (match_token tokens pat pos).2 := by
  unfold match_token
  split
  · split <;> simp
  · simp

theorem POut.bind_pos_mono {α β : Type} {r : POut α} {f : α → Nat → POut β} {pos p : Nat}
    (hr : ∀ q, r.pos? = some q → pos ≤ q)
    (hf : ∀ a q p', r = .ok a q → (f a q).pos? = some p' → q ≤ p')
    (h : (r.bind f).pos? = some p) : pos ≤ p := by
  cases r with
  | ok a q => exact le_trans (hr q rfl) (hf a q p rfl h)
  | err e q =>
    have h2 := hr q rfl
    simp [POut.bind, POut.pos?] at h
    omega
  | panicked => simp [POut.bind, POut.pos?] at h
  | fuelOut => simp [POut.bind, POut.pos?] at h

theorem POut.ok_pos_le {α : Type} {a : α} {q p : Nat}
    (h : (POut.ok a q).pos? = some p) : q ≤ p := by
  simp [POut.pos?] at h
  omega

theorem POut.bind_ok {α β : Type} {r : POut α} {f : α → Nat → POut β} {b : β} {p : Nat}
    (h : r.bind f = .ok b p) : ∃ a q, r = .ok a q ∧ f a q = .ok b p := by
  cases r with
  | ok a q => exact ⟨a, q, rfl, h⟩
  | err e q => simp [POut.bind] at h
  | panicked => simp [POut.bind] at h
  | fuelOut => simp [POut.bind] at h

/-- Cursor monotonicity for every parser subroutine, at every fuel: whatever a
subroutine returns (success or error), the cursor never moves backwards. -/
theorem parser_pos_mono : ∀ fuel : Nat,
    (∀ tokens pos p, (parse_type tokens fuel pos).pos? = some p → pos ≤ p) ∧
    (∀ tokens pos p, (parse_statement tokens fuel pos).pos? = some p → pos ≤ p) ∧
    (∀ tokens pos p, (parse_let_statement tokens fuel pos).pos? = some p → pos ≤ p) ∧
    (∀ tokens pos acc p, (parse_block_items tokens fuel pos acc).pos? = some p → pos ≤ p) ∧
    (∀ tokens pos p, (parse_block_statement tokens fuel pos).pos? = some p → pos ≤ p) ∧
    (∀ tokens pos p, (parse_expression_statement tokens fuel pos).pos? = some p → pos ≤ p) ∧
    (∀ tokens pos p, (parse_expression tokens fuel pos).pos? = some p → pos ≤ p) ∧
    (∀ tokens pos p, (parse_assignment tokens fuel pos).pos? = some p → pos ≤ p) ∧
    (∀ tokens pos p, (parse_equality tokens fuel pos).pos? = some p → pos ≤ p) ∧
    (∀ tokens left pos p, (parse_equality_loop tokens fuel left pos).pos? = some p → pos ≤ p) ∧
    (∀ tokens pos p, (parse_comparison tokens fuel pos).pos? = some p → pos ≤ p) ∧
    (∀ tokens pos p, (parse_term tokens fuel pos).pos? = some p → pos ≤ p) ∧
    (∀ tokens pos p, (parse_factor tokens fuel pos).pos? = some p → pos ≤ p) ∧
    (∀ tokens pos p, (parse_unary tokens fuel pos).pos? = some p → pos ≤ p) ∧
    (∀ tokens pos p, (parse_call tokens fuel pos).pos? = some p → pos ≤ p) ∧
    (∀ tokens expr pos p, (parse_call_loop tokens fuel expr pos).pos? = some p → pos ≤ p) ∧
    (∀ tokens pos acc p, (parse_args_loop tokens fuel pos acc).pos? = some p → pos ≤ p) ∧
    (∀ tokens callee pos p, (finish_call tokens fuel callee pos).pos? = some p → pos ≤ p) ∧
    (∀ tokens pos acc p, (parse_array_items tokens fuel pos acc).pos? = some p → pos ≤ p) ∧
    (∀ tokens pos p, (parse_primary tokens fuel pos).pos? = some p → pos ≤ p) ∧
    (∀ tokens parts pos acc p,
      (parse_interpolated_string tokens fuel parts pos acc).pos? = some p → pos ≤ p) ∧
    (∀ tokens pos acc p, (parse_params_loop tokens fuel pos acc).pos? = some p → pos ≤ p) ∧
    (∀ tokens pos p, (parse_function_declaration tokens fuel pos).pos? = some p → pos ≤ p) ∧
    (∀ tokens pos p, (parse_return tokens fuel pos).pos? = some p → pos ≤ p) := by
  intro fuel
  induction fuel with
  | zero =>
    refine ⟨?_, ?_, ?_, ?_, ?_, ?_, ?_, ?_, ?_, ?_, ?_, ?_, ?_, ?_, ?_, ?_, ?_, ?_, ?_,
      ?_, ?_, ?_, ?_, ?_⟩
    · intro tokens pos p h; simp [parse_type, POut.pos?] at h
    · intro tokens pos p h; simp [parse_statement, POut.pos?] at h
    · intro tokens pos p h; simp [parse_let_statement, POut.pos?] at h
    · intro tokens pos acc p h; simp [parse_block_items, POut.pos?] at h
    · intro tokens pos p h; simp [parse_block_statement, POut.pos?] at h
    · intro tokens pos p h; simp [parse_expression_statement, POut.pos?] at h
    · intro tokens pos p h; simp [parse_expression, POut.pos?] at h
    · intro tokens pos p h; simp [parse_assignment, POut.pos?] at h
    · intro tokens pos p h; simp [parse_equality, POut.pos?] at h
    · intro tokens left pos p h; simp [parse_equality_loop, POut.pos?] at h
    · intro tokens pos p h; simp [parse_comparison, POut.pos?] at h
    · intro tokens pos p h; simp [parse_term, POut.pos?] at h
    · intro tokens pos p h; simp [parse_factor, POut.pos?] at h
    · intro tokens pos p h; simp [parse_unary, POut.pos?] at h
    · intro tokens pos p h; simp [parse_call, POut.pos?] at h
    · intro tokens expr pos p h; simp [parse_call_loop, POut.pos?] at h
    · intro tokens pos acc p h; simp [parse_args_loop, POut.pos?] at h
    · intro tokens callee pos p h; simp [finish_call, POut.pos?] at h
    · intro tokens pos acc p h; simp [parse_array_items, POut.pos?] at h
    · intro tokens pos p h; simp [parse_primary, POut.pos?] at h
    · intro tokens parts pos acc p h; simp [parse_interpolated_string, POut.pos?] at h
    · intro tokens pos acc p h; simp [parse_params_loop, POut.pos?] at h
    · intro tokens pos p h; simp [parse_function_declaration, POut.pos?] at h
    · intro tokens pos p h; simp [parse_return, POut.pos?] at h
  | succ fuel ih =>
    obtain ⟨ihType, ihStmt, ihLet, ihBlockItems, ihBlock, ihExprStmt, ihExpr, ihAssign,
      ihEq, ihEqLoop, ihCmp, ihTerm, ihFactor, ihUnary, ihCall, ihCallLoop, ihArgs,
      ihFinish, ihArray, ihPrimary, ihInterp, ihParams, ihFn, ihReturn⟩ := ih
    refine ⟨?_, ?_, ?_, ?_, ?_, ?_, ?_, ?_, ?_, ?_, ?_, ?_, ?_, ?_, ?_, ?_, ?_, ?_, ?_,
      ?_, ?_, ?_, ?_, ?_⟩
    · -- parse_type
      intro tokens pos p h
      simp only [parse_type] at h
      split at h
      · split at h
        · have := POut.ok_pos_le h; omega
        · have := POut.ok_pos_le h; omega
        · refine POut.bind_pos_mono ?_ ?_ h
          · intro q hq
            have := ihType _ _ _ hq
            omega
          · intro a q p' _ h'
            refine POut.bind_pos_mono (fun q2 hq2 => expect_pos_le hq2) ?_ h'
            intro b q2 p2 _ h2
            exact POut.ok_pos_le h2
        · simp [POut.pos?] at h; omega
      · split at h
        · simp [POut.pos?] at h; omega
        · simp [POut.pos?] at h
    · -- parse_statement
      intro tokens pos p h
      simp only [parse_statement] at h
      split at h
      · split at h
        · exact ihLet _ _ _ h
        · exact ihFn _ _ _ h
        · exact ihReturn _ _ _ h
        · exact ihBlock _ _ _ h
        · exact ihExprStmt _ _ _ h
      · split at h
        · simp [POut.pos?] at h; omega
        · simp [POut.pos?] at h
    · -- parse_let_statement
      intro tokens pos p h
      simp only [parse_let_statement] at h
      refine POut.bind_pos_mono (fun q hq => expect_pos_le hq) ?_ h
      intro _ pos1 p1 _ h1
      refine POut.bind_pos_mono (fun q hq => expect_pos_le hq) ?_ h1
      intro nameToken pos2 p2 _ h2
      split at h2
      · refine POut.bind_pos_mono ?_ ?_ h2
        · intro q hq
          have hm := match_token_le tokens Tokens.is_colon pos2
          split at hq
          · refine le_trans hm (POut.bind_pos_mono (fun q2 hq2 => ihType _ _ _ hq2) ?_ hq)
            intro t q2 p' _ h'
            exact POut.ok_pos_le h'
          · have := POut.ok_pos_le hq
            omega
        · intro ta pos3 p3 _ h3
          refine POut.bind_pos_mono ?_ ?_ h3
          · intro q hq
            have hm := match_token_le tokens Tokens.is_binop_eq pos3
            split at hq
            · split at hq
              · rename_i expr pe hpe
                have hx := ihExpr _ _ _ (by rw [hpe]; rfl)
                have := POut.ok_pos_le hq
                omega
              · rename_i e pe hpe
                have hx := ihExpr _ _ _ (by rw [hpe]; rfl)
                split at hq
                · simp [POut.pos?] at hq
                  omega
                · simp [POut.pos?] at hq
              · simp [POut.pos?] at hq
              · simp [POut.pos?] at hq
            · have := POut.ok_pos_le hq
              omega
          · intro init pos4 p4 _ h4
            refine POut.bind_pos_mono (fun q hq => expect_pos_le hq) ?_ h4
            intro _ pos5 p5 _ h5
            exact POut.ok_pos_le h5
      · simp [POut.pos?] at h2
        omega
    · -- parse_block_items
      intro tokens pos acc p h
      simp only [parse_block_items] at h
      split at h
      · have := POut.ok_pos_le h; omega
      · refine POut.bind_pos_mono (fun q hq => ihStmt _ _ _ hq) ?_ h
        intro s q p' _ h'
        exact ihBlockItems _ _ _ _ h'
    · -- parse_block_statement
      intro tokens pos p h
      simp only [parse_block_statement] at h
      refine POut.bind_pos_mono (fun q hq => expect_pos_le hq) ?_ h
      intro _ pos1 p1 _ h1
      refine POut.bind_pos_mono (fun q hq => ihBlockItems _ _ _ _ hq) ?_ h1
      intro stmts pos2 p2 _ h2
      refine POut.bind_pos_mono (fun q hq => expect_pos_le hq) ?_ h2
      intro _ pos3 p3 _ h3
      exact POut.ok_pos_le h3
    · -- parse_expression_statement
      intro tokens pos p h
      simp only [parse_expression_statement] at h
      refine POut.bind_pos_mono (fun q hq => ihExpr _ _ _ hq) ?_ h
      intro e pos1 p1 _ h1
      refine POut.bind_pos_mono (fun q hq => expect_pos_le hq) ?_ h1
      intro _ pos2 p2 _ h2
      exact POut.ok_pos_le h2
    · -- parse_expression
      intro tokens pos p h
      simp only [parse_expression] at h
      exact ihAssign _ _ _ h
    · -- parse_assignment
      intro tokens pos p h
      simp only [parse_assignment] at h
      refine POut.bind_pos_mono (fun q hq => ihEq _ _ _ hq) ?_ h
      intro expr pos1 p1 _ h1
      split at h1
      · refine POut.bind_pos_mono ?_ ?_ h1
        · intro q hq
          have hm := match_token_le tokens Tokens.is_binop_eq pos1
          have := ihAssign _ _ _ hq
          omega
        · intro v q p' _ h'
          exact POut.ok_pos_le h'
      · exact POut.ok_pos_le h1
    · -- parse_equality
      intro tokens pos p h
      simp only [parse_equality] at h
      refine POut.bind_pos_mono (fun q hq => ihCmp _ _ _ hq) ?_ h
      intro left pos1 p1 _ h1
      exact ihEqLoop _ _ _ _ h1
    · -- parse_equality_loop
      intro tokens left pos p h
      simp only [parse_equality_loop] at h
      split at h
      · split at h
        · split at h
          · refine POut.bind_pos_mono ?_ ?_ h
            · intro q hq
              have := ihCmp _ _ _ hq
              omega
            · intro r q p' _ h'
              exact ihEqLoop _ _ _ _ h'
          · refine POut.bind_pos_mono ?_ ?_ h
            · intro q hq
              have := ihCmp _ _ _ hq
              omega
            · intro r q p' _ h'
              exact ihEqLoop _ _ _ _ h'
          · exact POut.ok_pos_le h
        · exact POut.ok_pos_le h
      · exact POut.ok_pos_le h
    · -- parse_comparison
      intro tokens pos p h
      simp only [parse_comparison] at h
      exact ihTerm _ _ _ h
    · -- parse_term
      intro tokens pos p h
      simp only [parse_term] at h
      exact ihFactor _ _ _ h
    · -- parse_factor
      intro tokens pos p h
      simp only [parse_factor] at h
      exact ihUnary _ _ _ h
    · -- parse_unary
      intro tokens pos p h
      simp only [parse_unary] at h
      split at h
      · split at h
        · refine POut.bind_pos_mono ?_ ?_ h
          · intro q hq
            have := ihUnary _ _ _ hq
            omega
          · intro a q p' _ h'
            exact POut.ok_pos_le h'
        · exact ihCall _ _ _ h
      · exact ihCall _ _ _ h
    · -- parse_call
      intro tokens pos p h
      simp only [parse_call] at h
      refine POut.bind_pos_mono (fun q hq => ihPrimary _ _ _ hq) ?_ h
      intro e pos1 p1 _ h1
      exact ihCallLoop _ _ _ _ h1
    · -- parse_call_loop
      intro tokens expr pos p h
      simp only [parse_call_loop] at h
      split at h
      · refine POut.bind_pos_mono ?_ ?_ h
        · intro q hq
          have hm := match_token_le tokens Tokens.is_left_paren pos
          have := ihFinish _ _ _ _ hq
          omega
        · intro e q p' _ h'
          exact ihCallLoop _ _ _ _ h'
      · split at h
        · refine POut.bind_pos_mono ?_ ?_ h
          · intro q hq
            have hm := match_token_le tokens Tokens.is_left_bracket pos
            have := ihExpr _ _ _ hq
            omega
          · intro idx q p' _ h'
            refine POut.bind_pos_mono (fun q2 hq2 => expect_pos_le hq2) ?_ h'
            intro b q2 p2 _ h2
            exact ihCallLoop _ _ _ _ h2
        · split at h
          · refine POut.bind_pos_mono ?_ ?_ h
            · intro q hq
              have hm := match_token_le tokens Tokens.is_period pos
              have := expect_pos_le hq
              omega
            · intro mt q p' _ h'
              split at h'
              · exact ihCallLoop _ _ _ _ h'
              · exact ihCallLoop _ _ _ _ h'
          · exact POut.ok_pos_le h
    · -- parse_args_loop
      intro tokens pos acc p h
      simp only [parse_args_loop] at h
      refine POut.bind_pos_mono (fun q hq => ihExpr _ _ _ hq) ?_ h
      intro arg q p' _ h'
      split at h'
      · have hm := match_token_le tokens Tokens.is_comma q
        have := ihArgs _ _ _ _ h'
        omega
      · exact POut.ok_pos_le h'
    · -- finish_call
      intro tokens callee pos p h
      simp only [finish_call] at h
      refine POut.bind_pos_mono ?_ ?_ h
      · intro q hq
        split at hq
        · exact POut.ok_pos_le hq
        · exact ihArgs _ _ _ _ hq
      · intro args q p' _ h'
        refine POut.bind_pos_mono (fun q2 hq2 => expect_pos_le hq2) ?_ h'
        intro b q2 p2 _ h2
        exact POut.ok_pos_le h2
    · -- parse_array_items
      intro tokens pos acc p h
      simp only [parse_array_items] at h
      refine POut.bind_pos_mono (fun q hq => ihExpr _ _ _ hq) ?_ h
      intro el q p' _ h'
      split at h'
      · have hm := match_token_le tokens Tokens.is_comma q
        have := ihArray _ _ _ _ h'
        omega
      · exact POut.ok_pos_le h'
    · -- parse_primary
      intro tokens pos p h
      simp only [parse_primary] at h
      split at h
      · split at h
        · have := POut.ok_pos_le h; omega
        · have := POut.ok_pos_le h; omega
        · have := POut.ok_pos_le h; omega
        · have := POut.ok_pos_le h; omega
        · have := POut.ok_pos_le h; omega
        · rename_i parts heq
          cases hr : parse_interpolated_string tokens fuel parts pos [] with
          | ok sp q =>
            rw [hr] at h
            simp only [POut.bind] at h
            have := POut.ok_pos_le h
            omega
          | err e q =>
            rw [hr] at h
            simp only [POut.bind] at h
            simp [POut.pos?] at h
            have := ihInterp _ _ _ _ _ (by rw [hr]; rfl)
            omega
          | panicked => rw [hr] at h; simp [POut.bind, POut.pos?] at h
          | fuelOut => rw [hr] at h; simp [POut.bind, POut.pos?] at h
        · split at h
          · have := POut.ok_pos_le h; omega
          · have := POut.ok_pos_le h; omega
        · refine POut.bind_pos_mono ?_ ?_ h
          · intro q hq
            have := ihExpr _ _ _ hq
            omega
          · intro a q p' _ h'
            refine POut.bind_pos_mono (fun q2 hq2 => expect_pos_le hq2) ?_ h'
            intro b q2 p2 _ h2
            exact POut.ok_pos_le h2
        · refine POut.bind_pos_mono ?_ ?_ h
          · intro q hq
            split at hq
            · have := POut.ok_pos_le hq; omega
            · have := ihArray _ _ _ _ hq; omega
          · intro elems q p' _ h'
            refine POut.bind_pos_mono (fun q2 hq2 => expect_pos_le hq2) ?_ h'
            intro b q2 p2 _ h2
            exact POut.ok_pos_le h2
        · simp [POut.pos?] at h; omega
      · split at h
        · simp [POut.pos?] at h; omega
        · simp [POut.pos?] at h
    · -- parse_interpolated_string
      intro tokens parts pos acc p h
      cases parts with
      | nil =>
        simp only [parse_interpolated_string] at h
        exact POut.ok_pos_le h
      | cons part rest =>
        simp only [parse_interpolated_string] at h
        split at h
        · exact ihInterp _ _ _ _ _ h
        · split at h
          · simp [POut.pos?] at h
          · split at h
            · simp [POut.pos?] at h; omega
            · simp [POut.pos?] at h
          · split at h
            · exact ihInterp _ _ _ _ _ h
            · simp [POut.pos?] at h; omega
            · simp [POut.pos?] at h
            · simp [POut.pos?] at h
    · -- parse_params_loop
      intro tokens pos acc p h
      simp only [parse_params_loop] at h
      refine POut.bind_pos_mono (fun q hq => expect_pos_le hq) ?_ h
      intro pt q p' _ h'
      split at h'
      · refine POut.bind_pos_mono ?_ ?_ h'
        · intro q2 hq2
          have hm := match_token_le tokens Tokens.is_colon q
          split at hq2
          · refine le_trans hm (POut.bind_pos_mono (fun q3 hq3 => ihType _ _ _ hq3) ?_ hq2)
            intro t q3 p3 _ h3
            exact POut.ok_pos_le h3
          · have := POut.ok_pos_le hq2
            omega
        · intro ta q2 p2 _ h2
          split at h2
          · have hm := match_token_le tokens Tokens.is_comma q2
            have := ihParams _ _ _ _ h2
            omega
          · exact POut.ok_pos_le h2
      · simp [POut.pos?] at h'
        omega
    · -- parse_function_declaration
      intro tokens pos p h
      simp only [parse_function_declaration] at h
      refine POut.bind_pos_mono (fun q hq => expect_pos_le hq) ?_ h
      intro _ pos1 p1 _ h1
      refine POut.bind_pos_mono (fun q hq => expect_pos_le hq) ?_ h1
      intro nameToken pos2 p2 _ h2
      split at h2
      · refine POut.bind_pos_mono (fun q hq => expect_pos_le hq) ?_ h2
        intro _ pos3 p3 _ h3
        refine POut.bind_pos_mono ?_ ?_ h3
        · intro q hq
          split at hq
          · exact POut.ok_pos_le hq
          · exact ihParams _ _ _ _ hq
        · intro params pos4 p4 _ h4
          refine POut.bind_pos_mono (fun q hq => expect_pos_le hq) ?_ h4
          intro _ pos5 p5 _ h5
          refine POut.bind_pos_mono ?_ ?_ h5
          · intro q hq
            have hm := match_token_le tokens Tokens.is_thin_arrow pos5
            split at hq
            · refine le_trans hm (POut.bind_pos_mono (fun q2 hq2 => ihType _ _ _ hq2) ?_ hq)
              intro t q2 p' _ h'
              exact POut.ok_pos_le h'
            · have := POut.ok_pos_le hq
              omega
          · intro rt pos6 p6 _ h6
            split at h6
            · refine POut.bind_pos_mono (fun q hq => ihBlock _ _ _ hq) ?_ h6
              intro bs q p' _ h'
              split at h'
              · exact POut.ok_pos_le h'
              · exact POut.ok_pos_le h'
            · split at h6
              · simp [POut.pos?] at h6; omega
              · simp [POut.pos?] at h6
      · simp [POut.pos?] at h2
        omega
    · -- parse_return
      intro tokens pos p h
      simp only [parse_return] at h
      refine POut.bind_pos_mono (fun q hq => expect_pos_le hq) ?_ h
      intro _ pos1 p1 _ h1
      refine POut.bind_pos_mono (fun q hq => ihExpr _ _ _ hq) ?_ h1
      intro e pos2 p2 _ h2
      refine POut.bind_pos_mono (fun q hq => expect_pos_le hq) ?_ h2
      intro _ pos3 p3 _ h3
      exact POut.ok_pos_le h3

theorem parse_statement_pos_mono (fuel : Nat) {tokens : List Token} {pos p : Nat}
    (h : (parse_statement tokens fuel pos).pos? = some p) : pos ≤ p := by
  obtain ⟨_, hStmt, _⟩ := parser_pos_mono fuel
  exact hStmt _ _ _ h

/-- `synchronize`'s scan never moves the cursor backwards. -/
theorem synchronize_go_ge (tokens : List Token) :
    ∀ fuel pos, pos ≤ synchronize_go tokens fuel pos := by
  intro fuel
  induction fuel with
  | zero => intro pos; simp [synchronize_go]
  | succ fuel ih =>
    intro pos
    unfold synchronize_go
    split
    · omega
    · split
      · omega
      · split
        · omega
        · have := ih (pos + 1)
          omega

/-- `synchronize` consumes at least one token whenever the cursor is not at the
end of the token list. -/
theorem synchronize_progress {tokens : List Token} {pos : Nat}
    (h : pos < tokens.length) : pos < synchronize tokens pos := by
  unfold synchronize p_advance
  rw [if_pos h]
  have := synchronize_go_ge tokens (tokens.length + 1) (pos + 1)
  omega

/-- At the end of the token list, `synchronize` consumes nothing: `advance` is a
no-op and the scan loop exits at once. -/
theorem synchronize_at_eof {tokens : List Token} {pos : Nat}
    (h : tokens.length ≤ pos) : synchronize tokens pos = pos := by
  unfold synchronize p_advance
  rw [if_neg (by omega)]
  unfold synchronize_go
  rw [if_pos (by omega)]

theorem synchronize_ge (tokens : List Token) (pos : Nat) : pos ≤ synchronize tokens pos := by
  rcases Nat.lt_or_ge pos tokens.length with h | h
  · exact le_of_lt (synchronize_progress h)
  · rw [synchronize_at_eof h]

/-- A successful `parse_block_statement` strictly advances the cursor (its
opening `expect` consumes the `{`). -/
theorem parse_block_statement_strict :
    ∀ fuel {tokens : List Token} {pos p : Nat} {s : Nodes.Statement},
      parse_block_statement tokens fuel pos = .ok s p → pos < p := by
  intro fuel tokens pos p s h
  cases fuel with
  | zero => simp [parse_block_statement] at h
  | succ fuel =>
    obtain ⟨hType, hStmt, hLet, hItems, hBlock, hExprStmt, hExpr, hAssign, hEq, hEqLoop,
      hCmp, hTerm, hFactor, hUnary, hCall, hCallLoop, hArgs, hFinish, hArray, hPrimary,
      hInterp, hParams, hFn, hReturn⟩ := parser_pos_mono fuel
    simp only [parse_block_statement] at h
    obtain ⟨_, pos1, hexp1, h⟩ := POut.bind_ok h
    obtain ⟨stmts, pos2, hitems, h⟩ := POut.bind_ok h
    obtain ⟨_, pos3, hexp2, h⟩ := POut.bind_ok h
    cases h
    have e1 := expect_ok_pos hexp1
    have e2 := hItems _ _ _ _ (by rw [hitems]; rfl)
    have e3 := expect_ok_pos hexp2
    omega

/-- A successful `parse_let_statement` strictly advances the cursor. -/
theorem parse_let_statement_strict :
    ∀ fuel {tokens : List Token} {pos p : Nat} {s : Nodes.Statement},
      parse_let_statement tokens fuel pos = .ok s p → pos < p := by
  intro fuel tokens pos p s h
  cases fuel with
  | zero => simp [parse_let_statement] at h
  | succ fuel =>
    obtain ⟨hType, hStmt, hLet, hItems, hBlock, hExprStmt, hExpr, hAssign, hEq, hEqLoop,
      hCmp, hTerm, hFactor, hUnary, hCall, hCallLoop, hArgs, hFinish, hArray, hPrimary,
      hInterp, hParams, hFn, hReturn⟩ := parser_pos_mono fuel
    simp only [parse_let_statement] at h
    obtain ⟨_, pos1, hexp1, h⟩ := POut.bind_ok h
    have e1 := expect_ok_pos hexp1
    obtain ⟨nameToken, pos2, hexp2, h⟩ := POut.bind_ok h
    have e2 := @expect_pos_le _ _ _ pos1 _ (by rw [hexp2]; rfl)
    split at h
    · obtain ⟨ta, pos3, hif1, h⟩ := POut.bind_ok h
      obtain ⟨init, pos4, hif2, h⟩ := POut.bind_ok h
      obtain ⟨_, pos5, hexp3, h⟩ := POut.bind_ok h
      cases h
      have e3 : pos2 ≤ pos3 := by
        have hm := match_token_le tokens Tokens.is_colon pos2
        split at hif1
        · obtain ⟨t, q, hty, hok⟩ := POut.bind_ok hif1
          cases hok
          have := hType _ _ _ (by rw [hty]; rfl)
          omega
        · cases hif1
          omega
      have e4 : pos3 ≤ pos4 := by
        have hm := match_token_le tokens Tokens.is_binop_eq pos3
        split at hif2
        · split at hif2
          · rename_i expr pe hpe
            cases hif2
            have := hExpr _ _ _ (by rw [hpe]; rfl)
            omega
          · split at hif2 <;> simp at hif2
          · simp at hif2
          · simp at hif2
        · cases hif2
          omega
      have e5 := expect_ok_pos hexp3
      omega
    · simp at h

/-- A successful `parse_expression_statement` strictly advances the cursor (its
final `expect` consumes the `;`). -/
theorem parse_expression_statement_strict :
    ∀ fuel {tokens : List Token} {pos p : Nat} {s : Nodes.Statement},
      parse_expression_statement tokens fuel pos = .ok s p → pos < p := by
  intro fuel tokens pos p s h
  cases fuel with
  | zero => simp [parse_expression_statement] at h
  | succ fuel =>
    obtain ⟨hType, hStmt, hLet, hItems, hBlock, hExprStmt, hExpr, hAssign, hEq, hEqLoop,
      hCmp, hTerm, hFactor, hUnary, hCall, hCallLoop, hArgs, hFinish, hArray, hPrimary,
      hInterp, hParams, hFn, hReturn⟩ := parser_pos_mono fuel
    simp only [parse_expression_statement] at h
    obtain ⟨e, pos1, hx, h⟩ := POut.bind_ok h
    obtain ⟨_, pos2, hexp, h⟩ := POut.bind_ok h
    cases h
    have e1 := hExpr _ _ _ (by rw [hx]; rfl)
    have e2 := expect_ok_pos hexp
    omega

/-- A successful `parse_return` strictly advances the cursor. -/
theorem parse_return_strict :
    ∀ fuel {tokens : List Token} {pos p : Nat} {s : Nodes.Statement},
      parse_return tokens fuel pos = .ok s p → pos < p := by
  intro fuel tokens pos p s h
  cases fuel with
  | zero => simp [parse_return] at h
  | succ fuel =>
    obtain ⟨hType, hStmt, hLet, hItems, hBlock, hExprStmt, hExpr, hAssign, hEq, hEqLoop,
      hCmp, hTerm, hFactor, hUnary, hCall, hCallLoop, hArgs, hFinish, hArray, hPrimary,
      hInterp, hParams, hFn, hReturn⟩ := parser_pos_mono fuel
    simp only [parse_return] at h
    obtain ⟨_, pos1, hexp1, h⟩ := POut.bind_ok h
    obtain ⟨e, pos2, hx, h⟩ := POut.bind_ok h
    obtain ⟨_, pos3, hexp2, h⟩ := POut.bind_ok h
    cases h
    have e1 := expect_ok_pos hexp1
    have e2 := hExpr _ _ _ (by rw [hx]; rfl)
    have e3 := expect_ok_pos hexp2
    omega

/-- A successful `parse_function_declaration` strictly advances the cursor. -/
theorem parse_function_declaration_strict :
    ∀ fuel {tokens : List Token} {pos p : Nat} {s : Nodes.Statement},
      parse_function_declaration tokens fuel pos = .ok s p → pos < p := by
  intro fuel tokens pos p s h
  cases fuel with
  | zero => simp [parse_function_declaration] at h
  | succ fuel =>
    obtain ⟨hType, hStmt, hLet, hItems, hBlock, hExprStmt, hExpr, hAssign, hEq, hEqLoop,
      hCmp, hTerm, hFactor, hUnary, hCall, hCallLoop, hArgs, hFinish, hArray, hPrimary,
      hInterp, hParams, hFn, hReturn⟩ := parser_pos_mono fuel
    simp only [parse_function_declaration] at h
    obtain ⟨_, pos1, hexp1, h⟩ := POut.bind_ok h
    have e1 := expect_ok_pos hexp1
    obtain ⟨nameToken, pos2, hexp2, h⟩ := POut.bind_ok h
    have e2 := @expect_pos_le _ _ _ pos1 _ (by rw [hexp2]; rfl)
    split at h
    · obtain ⟨_, pos3, hexp3, h⟩ := POut.bind_ok h
      have e3 := @expect_pos_le _ _ _ pos2 _ (by rw [hexp3]; rfl)
      obtain ⟨params, pos4, hparams, h⟩ := POut.bind_ok h
      have e4 : pos3 ≤ pos4 := by
        split at hparams
        · cases hparams
          omega
        · exact hParams _ _ _ _ (by rw [hparams]; rfl)
      obtain ⟨_, pos5, hexp4, h⟩ := POut.bind_ok h
      have e5 := @expect_pos_le _ _ _ pos4 _ (by rw [hexp4]; rfl)
      obtain ⟨rt, pos6, hif, h⟩ := POut.bind_ok h
      have e6 : pos5 ≤ pos6 := by
        have hm := match_token_le tokens Tokens.is_thin_arrow pos5
        split at hif
        · obtain ⟨t, q, hty, hok⟩ := POut.bind_ok hif
          cases hok
          have := hType _ _ _ (by rw [hty]; rfl)
          omega
        · cases hif
          omega
      split at h
      · obtain ⟨bs, pos7, hblk, h⟩ := POut.bind_ok h
        have e7 := hBlock _ _ _ (by rw [hblk]; rfl)
        split at h <;> cases h <;> omega
      · split at h <;> simp at h
    · simp at h

/-- A successful `parse_statement` strictly advances the cursor: every statement
form consumes at least one token. -/
theorem parse_statement_strict :
    ∀ fuel {tokens : List Token} {pos p : Nat} {s : Nodes.Statement},
      parse_statement tokens fuel pos = .ok s p → pos < p := by
  intro fuel tokens pos p s h
  cases fuel with
  | zero => simp [parse_statement] at h
  | succ fuel =>
    simp only [parse_statement] at h
    split at h
    · split at h
      · exact parse_let_statement_strict fuel h
      · exact parse_function_declaration_strict fuel h
      · exact parse_return_strict fuel h
      · exact parse_block_statement_strict fuel h
      · exact parse_expression_statement_strict fuel h
    · split at h <;> simp at h

/-- The statement loop of `parse` never exhausts its own fuel: as long as the
inner `parse_statement` recursion does not run out of (native-stack) fuel, every
iteration strictly advances the cursor, so `tokens.length + 1` iterations always
suffice. -/
theorem parse_go_ne_fuelOut {tokens : List Token} {exprFuel : Nat}
    (hstmt : ∀ pos, parse_statement tokens exprFuel pos ≠ .fuelOut) :
    ∀ fuel pos stmts errs, tokens.length - pos < fuel →
      parse_go tokens exprFuel fuel pos stmts errs ≠ .fuelOut := by
  intro fuel
  induction fuel with
  | zero => intro pos stmts errs h; omega
  | succ fuel ih =>
    intro pos stmts errs h
    unfold parse_go
    split
    · simp
    · rename_i heof
      have hlt : pos < tokens.length := by omega
      cases hr : parse_statement tokens exprFuel pos with
      | ok s q =>
        have := parse_statement_strict exprFuel hr
        exact ih _ _ _ (by omega)
      | err e q =>
        have h1 : pos ≤ q := parse_statement_pos_mono exprFuel (by rw [hr]; rfl)
        rcases Nat.lt_or_ge q tokens.length with hcase | hcase
        · have := synchronize_progress hcase
          exact ih _ _ _ (by omega)
        · have hs := synchronize_at_eof hcase
          exact ih (synchronize tokens q) _ _ (by rw [hs]; omega)
      | panicked => simp
      | fuelOut => exact absurd hr (hstmt pos)

/-- `CarbideParser::parse` can stop early only because of the expression
recursion (the native call stack), never because of its own statement loop. -/
theorem parse_ne_fuelOut {tokens : List Token} {exprFuel : Nat}
    (hstmt : ∀ pos, parse_statement tokens exprFuel pos ≠ .fuelOut) :
    parse tokens exprFuel ≠ .fuelOut :=
  parse_go_ne_fuelOut hstmt (tokens.length + 1) 0 [] [] (by omega)

/-!
## Claim theorems
-/

/-- C1 (counterexample): the claim is false on the code.  `"5 = 3;"` parses with
no diagnostics at all — in particular no `InvalidAssignmentTarget` — and the AST
does contain an `Assignment` node whose target is the literal `5`:
`parse_assignment` performs no validation of the left-hand side. -/
theorem C1_counterexample :
    parse_src "5 = 3;" 1000 =
      some (.res ⟨[.Expression (.Assignment (.Literal (.Int 5)) (.Literal (.Int 3)))], []⟩) :=
  rfl

/-- C1 (amended): `parse_assignment` accepts any expression as assignment
target.  `"5 = 3;"` parses without diagnostics to
`Assignment{target: Literal(5), value: Literal(3)}`, and `"x = 3;"` parses
without diagnostics to `Assignment{target: Identifier("x"), value: Literal(3)}`;
no `InvalidAssignmentTarget` is reported in either case (the parser emits that
error only from `parse_let_statement`'s failed-initializer path). -/
theorem C1_assignment_target_not_validated :
    parse_src "5 = 3;" 1000 =
      some (.res ⟨[.Expression (.Assignment (.Literal (.Int 5)) (.Literal (.Int 3)))], []⟩) ∧
    parse_src "x = 3;" 1000 =
      some (.res ⟨[.Expression (.Assignment (.Identifier (str "x")) (.Literal (.Int 3)))],
        []⟩) :=
  ⟨rfl, rfl⟩

/-- C2 (code bug): parsing the interpolated string `"{}"` (whose single
interpolation fragment is empty) does not return a `(ast, errors)` pair.  The
empty fragment re-lexes to an empty token list, the fresh mini parser hits
end-of-input at position 0, and `current_location` evaluates
`self.tokens.get(self.pos - 1)` eagerly inside `map_or`: the `usize` subtraction
`0 - 1` underflows and `unwrap_unchecked` is fed `None` — a panic in debug
builds, undefined behaviour in release builds.  Lexing the same input is fine. -/
theorem C2_empty_interpolation_panics :
    lex (str "\"{}\"") =
      some ⟨[⟨.InterpolatedString [.Interpolation []], ⟨1, 1, 0⟩, ⟨1, 5, 4⟩, (0, 4),
        str "\"{}\""⟩], []⟩ ∧
    parse_src "\"{}\"" 1000 = some .panicked ∧
    p_current_location ([] : List Token) 0 = none :=
  ⟨rfl, rfl, rfl⟩

/-- C3 (code bug): the lexer's operator table (`operators.rs`) contains only
`==`, `!=`, `=` and `!` — no `+`, `-`, `*`, `/`, `%`.  Lexing `"1 + 2 * 3"`
therefore yields `UnexpectedChar('+')` and `UnexpectedChar('*')` diagnostics and
only the three integer tokens, so the claimed parse cannot even be attempted
(parser.rs's `parse_term`/`parse_factor` arms name `BinaryOperators::Plus`/
`Star`, variants that do not exist in that enum; with the enum as declared the
two loops can never fire, so they reduce to the next level down). -/
theorem C3_arithmetic_operators_missing :
    lex (str "1 + 2 * 3") =
      some ⟨[⟨.IntLiteral 1, ⟨1, 1, 0⟩, ⟨1, 2, 1⟩, (0, 1), str "1"⟩,
             ⟨.IntLiteral 2, ⟨1, 5, 4⟩, ⟨1, 6, 5⟩, (4, 5), str "2"⟩,
             ⟨.IntLiteral 3, ⟨1, 9, 8⟩, ⟨1, 10, 9⟩, (8, 9), str "3"⟩],
            [.UnexpectedChar '+' ⟨1, 3, 2⟩, .UnexpectedChar '*' ⟨1, 7, 6⟩]⟩ ∧
    BinaryOperators.try_from (str "+") = none ∧
    BinaryOperators.try_from (str "*") = none ∧
    BinaryOperators.starts_with '+' = false ∧
    BinaryOperators.starts_with '*' = false ∧
    (∀ (tokens : List Token) (fuel pos : Nat),
      parse_term tokens (fuel + 1) pos = parse_factor tokens fuel pos) ∧
    (∀ (tokens : List Token) (fuel pos : Nat),
      parse_factor tokens (fuel + 1) pos = parse_unary tokens fuel pos) :=
  ⟨rfl, rfl, rfl, rfl, rfl, fun _ _ _ => rfl, fun _ _ _ => rfl⟩

/-- C4 (counterexample): a nested re-parse failure is not masked.  In
`x; "{;}";` the fragment `;` re-lexes fine, the mini parser fails with
`UnexpectedToken{expected: "expression", found: ;}`, and exactly that
diagnostic — carrying the fragment-local token (span 0..1) — is what `parse`
reports, not an `ExpectedExpression` at the outer string token's location. -/
theorem C4_counterexample :
    parse_src "x; \"{;}\";" 1000 =
      some (.res ⟨[.Expression (.Identifier (str "x"))],
        [.UnexpectedToken (str "expression")
          ⟨.Semicolon, ⟨1, 1, 0⟩, ⟨1, 2, 1⟩, (0, 1), str ";"⟩]⟩) :=
  rfl

/-- C4 (amended): only a nested re-lex (`lex_strict`) failure is masked as
`ExpectedExpression` at the outer parser's current location — the outer
interpolated-string token's end location (`x; "{@}";` reports
`ExpectedExpression` at offset 8, the end of the string token spanning 3..8).
A nested re-parse (`parse_expression`) failure propagates the mini parser's own
diagnostic unchanged, with its fragment-local location (`x; "{!}";` reports the
mini parser's `UnexpectedEOF` at fragment-local offset 1). -/
theorem C4_only_nested_lex_failures_masked :
    parse_src "x; \"{@}\";" 1000 =
      some (.res ⟨[.Expression (.Identifier (str "x"))],
        [.ExpectedExpression ⟨1, 9, 8⟩]⟩) ∧
    parse_src "x; \"{!}\";" 1000 =
      some (.res ⟨[.Expression (.Identifier (str "x"))],
        [.UnexpectedEOF ⟨1, 2, 1⟩]⟩) :=
  ⟨rfl, rfl⟩

/-- C5 (counterexample): a non-ASCII character inside string literal content is
accepted silently: lexing `"é"` produces a `StringLiteral` token whose content
contains `é` and no diagnostics at all — no `NonASCIIChar` is recorded. -/
theorem C5_counterexample :
    lex (str "\"é\"") =
      some ⟨[⟨.StringLiteral ['é'], ⟨1, 1, 0⟩, ⟨1, 4, 3⟩, (0, 3), str "\"é\""⟩], []⟩ :=
  rfl

/-- C5 (amended): the `NonASCIIChar` check runs only where the main lexer loop
classifies the start of a new token.  A bare `é` is rejected with
`NonASCIIChar`; but inside string literal content the character is consumed by
`lex_string`'s scan, and inside comments by the comment skippers, with no
diagnostic: `"é"` lexes to a `StringLiteral` containing `é` with zero
diagnostics, and `// é` and `/* é */ x` produce zero diagnostics. -/
theorem C5_non_ascii_only_checked_at_token_start :
    lex (str "é") = some ⟨[], [.NonASCIIChar 'é' ⟨1, 1, 0⟩]⟩ ∧
    lex (str "\"é\"") =
      some ⟨[⟨.StringLiteral ['é'], ⟨1, 1, 0⟩, ⟨1, 4, 3⟩, (0, 3), str "\"é\""⟩], []⟩ ∧
    lex (str "// é") = some ⟨[], []⟩ ∧
    lex (str "/* é */ x") =
      some ⟨[⟨.Identifier (str "x"), ⟨1, 9, 8⟩, ⟨1, 10, 9⟩, (8, 9), str "x"⟩], []⟩ :=
  ⟨rfl, rfl, rfl, rfl⟩

/-- C6 (counterexample): hex digits whose value exceeds `i64::MAX` do not yield
`InvalidIntegerLiteral`: lexing `0xFFFFFFFFFFFFFFFF` records
`InvalidHexLiteral` (with the digit text), and nothing else. -/
theorem C6_counterexample :
    lex (str "0xFFFFFFFFFFFFFFFF") =
      some ⟨[], [.InvalidHexLiteral (str "FFFFFFFFFFFFFFFF") ⟨1, 1, 0⟩]⟩ :=
  rfl

/-- C6 (amended): literal text is parsed as exact `i64` and overflow or
malformed text yields the diagnostic of the literal's own branch, not a panic:
decimal overflow yields `InvalidIntegerLiteral`, hex overflow
`InvalidHexLiteral`, binary overflow `InvalidBinaryLiteral`; `i64::MAX` itself
is parsed exactly in both decimal and hex; a float literal is accepted (f64
parsing of the digit-and-dot slices this lexer produces cannot fail, so
`InvalidFloatLiteral` is unreachable from `lex_number`'s float branch). -/
theorem C6_overflow_diagnostics_per_branch :
    lex (str "9223372036854775807") =
      some ⟨[⟨.IntLiteral 9223372036854775807, ⟨1, 1, 0⟩, ⟨1, 20, 19⟩, (0, 19),
        str "9223372036854775807"⟩], []⟩ ∧
    lex (str "9223372036854775808") =
      some ⟨[], [.InvalidIntegerLiteral (str "9223372036854775808") ⟨1, 1, 0⟩]⟩ ∧
    lex (str "0x7FFFFFFFFFFFFFFF") =
      some ⟨[⟨.HexLiteral 9223372036854775807, ⟨1, 1, 0⟩, ⟨1, 19, 18⟩, (0, 18),
        str "0x7FFFFFFFFFFFFFFF"⟩], []⟩ ∧
    lex (str "0xFFFFFFFFFFFFFFFF") =
      some ⟨[], [.InvalidHexLiteral (str "FFFFFFFFFFFFFFFF") ⟨1, 1, 0⟩]⟩ ∧
    lex (('0' :: 'b' :: List.replicate 64 '1')) =
      some ⟨[], [.InvalidBinaryLiteral (List.replicate 64 '1') ⟨1, 1, 0⟩]⟩ ∧
    lex (str "1.5") =
      some ⟨[⟨.FloatLiteral (str "1.5"), ⟨1, 1, 0⟩, ⟨1, 4, 3⟩, (0, 3), str "1.5"⟩], []⟩ :=
  ⟨rfl, by decide, rfl, rfl, by decide, rfl⟩

/-- C7: block comments nest by depth counting.  The balanced
`let /* a /* b /* c */ d */ e */ x = 5` lexes to exactly the four tokens `let`,
`x`, `=`, `5` with zero diagnostics; the unbalanced `let /* a /* b */ c` yields
exactly one `UnclosedComment` diagnostic anchored at the comment's start
(offset 4) and no token besides `let`. -/
theorem C7_nested_comment_balance :
    lex (str "let /* a /* b /* c */ d */ e */ x = 5") =
      some ⟨[⟨.Keyword .Let, ⟨1, 1, 0⟩, ⟨1, 4, 3⟩, (0, 3), str "let"⟩,
             ⟨.Identifier (str "x"), ⟨1, 33, 32⟩, ⟨1, 34, 33⟩, (32, 33), str "x"⟩,
             ⟨.BinaryOperator .Eq, ⟨1, 35, 34⟩, ⟨1, 36, 35⟩, (34, 35), str "="⟩,
             ⟨.IntLiteral 5, ⟨1, 37, 36⟩, ⟨1, 38, 37⟩, (36, 37), str "5"⟩], []⟩ ∧
    lex (str "let /* a /* b */ c") =
      some ⟨[⟨.Keyword .Let, ⟨1, 1, 0⟩, ⟨1, 4, 3⟩, (0, 3), str "let"⟩],
        [.UnclosedComment ⟨1, 5, 4⟩]⟩ :=
  ⟨rfl, rfl⟩

/-- C8: round-trip slicing.  For every input and every token in a lex result,
the token's `src` slice is byte-for-byte the substring of the input denoted by
its span. -/
theorem C8_token_slice_roundtrip (input : List Char) (r : LexResult) (t : Token)
    (h1 : lex input = some r) (h2 : t ∈ r.tokens) :
    t.src = extract input t.span.1 t.span.2 := by
  refine @lex_go_tokens input (input.length + 1) from_src [] [] r ?_ ?_ t h2
  · exact h1
  · intro t' ht'
    simp at ht'

/-- C8 (witness): the round-trip property applied to the sole token of lexing
`let`. -/
theorem C8_token_slice_roundtrip_witness :
    (⟨.Keyword .Let, ⟨1, 1, 0⟩, ⟨1, 4, 3⟩, (0, 3), str "let"⟩ : Token).src =
      extract (str "let") 0 3 :=
  C8_token_slice_roundtrip (str "let")
    ⟨[⟨.Keyword .Let, ⟨1, 1, 0⟩, ⟨1, 4, 3⟩, (0, 3), str "let"⟩], []⟩
    ⟨.Keyword .Let, ⟨1, 1, 0⟩, ⟨1, 4, 3⟩, (0, 3), str "let"⟩ rfl (by simp)

/-- C9 (counterexample): the error-recovery routines do not always consume
input.  Lexing the unclosed string `"abc` raises `UnclosedString` with the
cursor at end of input (position 4), and `recover_from_error` invoked on that
state consumes nothing; likewise `synchronize` at the end of the token list
consumes no token. -/
theorem C9_counterexample :
    lex (str "\"abc") = some ⟨[], [.UnclosedString ⟨1, 1, 0⟩]⟩ ∧
    recover_from_error (str "\"abc") ⟨4, 1, 5⟩ = ⟨4, 1, 5⟩ ∧
    synchronize [⟨.Semicolon, ⟨1, 1, 0⟩, ⟨1, 2, 1⟩, (0, 1), str ";"⟩] 1 = 1 :=
  ⟨rfl, rfl, rfl⟩

/-- C9 (amended): lexing terminates on every finite input, and recovery makes
progress whenever there is input left: `recover_from_error` consumes at least
one character when the cursor is not at end of input (at EOF it consumes
nothing and the lexer loop then exits); `synchronize` consumes at least one
token when not at the end of the token list (at the end it consumes nothing and
the statement loop exits); every successful `parse_statement` strictly advances
the cursor and no parser subroutine ever moves it backwards, so the parser's
statement loop never exhausts its iteration budget — `parse` can stop early
only through the expression recursion's native-stack bound. -/
theorem C9_recovery_progress_and_termination :
    (∀ src : List Char, (lex src).isSome) ∧
    (∀ (src : List Char) (st : LexerState), st.pos < src.length →
      st.pos < (recover_from_error src st).pos) ∧
    (∀ (src : List Char) (st : LexerState), src.length ≤ st.pos →
      recover_from_error src st = st) ∧
    (∀ (tokens : List Token) (pos : Nat), pos < tokens.length →
      pos < synchronize tokens pos) ∧
    (∀ (tokens : List Token) (pos : Nat), tokens.length ≤ pos →
      synchronize tokens pos = pos) ∧
    (∀ (fuel : Nat) (tokens : List Token) (pos p : Nat) (s : Nodes.Statement),
      parse_statement tokens fuel pos = .ok s p → pos < p) ∧
    (∀ (fuel : Nat) (tokens : List Token) (pos p : Nat),
      (parse_statement tokens fuel pos).pos? = some p → pos ≤ p) ∧
    (∀ (tokens : List Token) (exprFuel : Nat),
      (∀ pos, parse_statement tokens exprFuel pos ≠ .fuelOut) →
      parse tokens exprFuel ≠ .fuelOut) :=
  ⟨lex_isSome,
   fun _ _ h => recover_from_error_progress h,
   fun _ _ h => recover_from_error_at_eof h,
   fun _ _ h => synchronize_progress h,
   fun _ _ h => synchronize_at_eof h,
   fun fuel _ _ _ _ h => parse_statement_strict fuel h,
   fun fuel _ _ _ h => parse_statement_pos_mono fuel h,
   fun _ _ h => parse_ne_fuelOut h⟩

/-- C9 (witness): the amended statements applied at concrete inputs. -/
theorem C9_recovery_progress_and_termination_witness :
    (lex (str "let x")).isSome ∧
    (0 : Nat) < (recover_from_error (str "@@x") ⟨0, 1, 1⟩).pos ∧
    recover_from_error (str "\"abc") ⟨4, 1, 5⟩ = ⟨4, 1, 5⟩ ∧
    (0 : Nat) < synchronize [⟨.Semicolon, ⟨1, 1, 0⟩, ⟨1, 2, 1⟩, (0, 1), str ";"⟩] 0 ∧
    synchronize ([] : List Token) 0 = 0 ∧
    (0 : Nat) < 2 ∧
    parse ([] : List Token) 1000 ≠ .fuelOut :=
  ⟨C9_recovery_progress_and_termination.1 (str "let x"),
   C9_recovery_progress_and_termination.2.1 (str "@@x") ⟨0, 1, 1⟩ (by decide),
   C9_recovery_progress_and_termination.2.2.1 (str "\"abc") ⟨4, 1, 5⟩ (by decide),
   C9_recovery_progress_and_termination.2.2.2.1 _ 0 (by decide),
   C9_recovery_progress_and_termination.2.2.2.2.1 ([] : List Token) 0 (by decide),
   C9_recovery_progress_and_termination.2.2.2.2.2.1 1000
     [⟨.Identifier (str "x"), ⟨1, 1, 0⟩, ⟨1, 2, 1⟩, (0, 1), str "x"⟩,
      ⟨.Semicolon, ⟨1, 2, 1⟩, ⟨1, 3, 2⟩, (1, 2), str ";"⟩] 0 2
     (.Expression (.Identifier (str "x"))) rfl,
   C9_recovery_progress_and_termination.2.2.2.2.2.2.2 ([] : List Token) 1000
     (fun pos => by simp [parse_statement, p_current_location])⟩

/-- C10: `true` and `false` are not keywords.  The lexer emits them as ordinary
`Identifier` tokens; `parse_primary` converts exactly the identifiers `true`
and `false` into boolean literals (other identifiers stay identifiers); and
`let true = 0;` parses without diagnostics into a `LetDeclaration` whose name
is `true`. -/
theorem C10_true_false_are_identifiers :
    lex (str "true") =
      some ⟨[⟨.Identifier (str "true"), ⟨1, 1, 0⟩, ⟨1, 5, 4⟩, (0, 4), str "true"⟩], []⟩ ∧
    Keywords.try_from (str "true") = none ∧
    Keywords.try_from (str "false") = none ∧
    parse_src "true;" 1000 = some (.res ⟨[.Expression (.Literal (.Bool true))], []⟩) ∧
    parse_src "false;" 1000 = some (.res ⟨[.Expression (.Literal (.Bool false))], []⟩) ∧
    parse_src "truex;" 1000 =
      some (.res ⟨[.Expression (.Identifier (str "truex"))], []⟩) ∧
    parse_src "let true = 0;" 1000 =
      some (.res ⟨[.LetDeclaration (str "true") none (some (.Literal (.Int 0)))], []⟩) :=
  ⟨rfl, rfl, rfl, rfl, rfl, rfl, rfl⟩

end Carbide
